import Mathlib

/-!
Shallow embedding of the event-management core of `src/test.cpp`
(KennethCyrilPimentel/interprig-finals), together with proofs about its
allocation accounting, serialization codec and registration logic.

Modelling conventions:
* C++ `int` is modelled as `Int` (overflow is not exercised by any claim).
* `std::map<int,int>` is modelled as a key-sorted association list
  `List (Int × Int)`; `std::map` structurally guarantees strictly
  increasing unique keys, which here appears as a `Pairwise` side
  condition where proofs need it.
* Interactive `std::cin` prompts are turned into explicit parameters;
  `std::cout` output is dropped.
* `std::stoi` either throws (modelled as `none`) or returns the longest
  numeric prefix; an uncaught exception aborting a whole routine is
  modelled by the routine returning `none` itself.
-/

namespace EMS

/-! ### Decimal printing and parsing (operator<< and std::stoi) -/

/-- The character for a decimal digit `d < 10`, i.e. `'0' + d`. -/
def digitChar (d : Nat) : Char := Char.ofNat (48 + d)

/-- Decimal digits of `n`, least significant first (empty for 0). -/
def natDigitsRev : Nat → List Char
  | 0 => []
  | n + 1 => digitChar ((n + 1) % 10) :: natDigitsRev ((n + 1) / 10)
decreasing_by exact Nat.div_lt_self (Nat.succ_pos n) (by norm_num)

/-- Decimal rendering of a natural number, as written by C++ `operator<<`. -/
def natToString (n : Nat) : String :=
  if n = 0 then "0" else String.mk (natDigitsRev n).reverse

/-- Decimal rendering of an `int`, as written by C++ `operator<<`. -/
def intToString (i : Int) : String :=
  if i < 0 then "-" ++ natToString i.natAbs else natToString i.toNat

/-- Numeric value of a digit character. -/
def charToDigit (c : Char) : Nat := c.toNat - 48

/-- Value of a most-significant-first digit string. -/
def digitsToNat (l : List Char) : Nat :=
  l.foldl (fun a c => 10 * a + charToDigit c) 0

/-- Little-endian value of a digit list (proof helper for `digitsToNat`). -/
def valLE : List Char → Nat
  | [] => 0
  | c :: cs => charToDigit c + 10 * valLE cs

/-- Parse the longest digit prefix of `l`; `none` when `l` does not start
with a digit (then `std::stoi` throws `std::invalid_argument`). -/
def parseNatPre (l : List Char) : Option Nat :=
  match l with
  | [] => none
  | c :: _ => if c.isDigit then some (digitsToNat (l.takeWhile Char.isDigit)) else none

/-- Model of `std::stoi`: optional leading minus sign, then a digit run;
trailing non-digit characters are ignored, as in C++. `none` models the
`std::invalid_argument` exception. -/
def stoi (s : String) : Option Int :=
  match s.data with
  | '-' :: rest => (parseNatPre rest).map (fun n => -Int.ofNat n)
  | l => (parseNatPre l).map Int.ofNat

/-! ### Field splitting (std::getline with a delimiter) -/

/-- One `std::getline(ss, field, d)` step: the characters before the first
delimiter, and the characters after it (the delimiter itself consumed; if
no delimiter occurs the rest is empty). -/
def splitField (cs : List Char) (d : Char) : List Char × List Char :=
  (cs.takeWhile (· ≠ d), (cs.dropWhile (· ≠ d)).drop 1)

/-- A `while (std::getline(ss, part, d))` loop: splits `cs` at every
occurrence of `d`; a trailing delimiter yields no extra empty part and the
empty input yields no parts, matching stream getline semantics. -/
def splitSep (cs : List Char) (d : Char) : List (List Char) :=
  if h : cs = [] then []
  else cs.takeWhile (· ≠ d) :: splitSep ((cs.dropWhile (· ≠ d)).drop 1) d
termination_by cs.length
decreasing_by
  have h1 := (List.dropWhile_sublist (l := cs) (· ≠ d)).length_le
  have h2 : 0 < cs.length := List.length_pos.mpr h
  simp only [List.length_drop]
  omega

/-! ### InventoryItem (src/test.cpp lines 250-361) -/

structure InventoryItem where
  itemId : Int
  name : String
  totalQuantity : Int
  allocatedQuantity : Int
  description : String
deriving DecidableEq, Repr

namespace InventoryItem

/-- `InventoryItem::getAvailableQuantity`. -/
def getAvailableQuantity (it : InventoryItem) : Int :=
  it.totalQuantity - it.allocatedQuantity

/-- `InventoryItem::allocate`: returns the C++ `bool` result together with
the (possibly updated) item. -/
def allocate (it : InventoryItem) (quantityToAllocate : Int) : Bool × InventoryItem :=
  if quantityToAllocate ≤ 0 then (false, it)
  else if quantityToAllocate ≤ it.getAvailableQuantity then
    (true, { it with allocatedQuantity := it.allocatedQuantity + quantityToAllocate })
  else (false, it)

/-- `InventoryItem::deallocate`. -/
def deallocate (it : InventoryItem) (quantityToDeallocate : Int) : Bool × InventoryItem :=
  if quantityToDeallocate ≤ 0 then (false, it)
  else if quantityToDeallocate ≤ it.allocatedQuantity then
    (true, { it with allocatedQuantity := it.allocatedQuantity - quantityToDeallocate })
  else (false, it)

/-- `InventoryItem::setTotalQuantity`: refuses (returns the item
unchanged) when the new total is negative or below the allocated count. -/
def setTotalQuantity (it : InventoryItem) (newTotalQuantity : Int) : InventoryItem :=
  if newTotalQuantity < 0 then it
  else if newTotalQuantity < it.allocatedQuantity then it
  else { it with totalQuantity := newTotalQuantity }

/-- `InventoryItem::toString`: `id,name,total,allocated,description`. -/
def encode (it : InventoryItem) : String :=
  intToString it.itemId ++ "," ++ it.name ++ "," ++ intToString it.totalQuantity
    ++ "," ++ intToString it.allocatedQuantity ++ "," ++ it.description

/-- `InventoryItem::fromString`. The four `std::getline` calls split at
commas and the description is the rest of the line; a `std::stoi` failure
throws out of the function, modelled as `none`. -/
def decode (s : String) : Option InventoryItem :=
  let (f1, r1) := splitField s.data ','
  let (f2, r2) := splitField r1 ','
  let (f3, r3) := splitField r2 ','
  let (f4, r4) := splitField r3 ','
  match stoi (String.mk f1), stoi (String.mk f3), stoi (String.mk f4) with
  | some id, some totalQty, some allocQty =>
      some ⟨id, String.mk f2, totalQty, allocQty, String.mk r4⟩
  | _, _, _ => none

/-- The `0 ≤ allocatedQuantity ≤ totalQuantity` invariant of §3. -/
def quantityInv (it : InventoryItem) : Prop :=
  0 ≤ it.allocatedQuantity ∧ it.allocatedQuantity ≤ it.totalQuantity

instance (it : InventoryItem) : Decidable it.quantityInv := by
  unfold quantityInv; infer_instance

end InventoryItem

/-- `System::loadInventory`: pushes `fromString` of every nonempty line;
a `std::stoi` exception is not caught anywhere on this path, so one
malformed line aborts the whole load (modelled as `none`). -/
def loadInventory : List String → Option (List InventoryItem)
  | [] => some []
  | line :: rest =>
    if line = "" then loadInventory rest
    else
      match InventoryItem.decode line with
      | none => none
      | some it => (loadInventory rest).map (it :: ·)

/-! ### Attendee (src/test.cpp lines 176-247) -/

structure Attendee where
  attendeeId : Int
  name : String
  contactInfo : String
  eventIdRegisteredFor : Int
  isCheckedIn : Bool
deriving DecidableEq, Repr

namespace Attendee

/-- `Attendee::checkIn`: sets the flag when it was unset, otherwise only
prints a message. -/
def checkIn (a : Attendee) : Attendee :=
  if a.isCheckedIn then a else { a with isCheckedIn := true }

end Attendee

/-! ### Event and its allocation map (src/test.cpp lines 364-547)

`std::map<int,int> allocatedInventory` is modelled as a key-sorted
association list; `EventStatus` is modelled by its underlying integer
(the code casts unchecked via `static_cast`), with the enumerator values
`UPCOMING = 0`, `ONGOING = 1`, `COMPLETED = 2`, `CANCELED = 3`. -/

namespace EventStatus

def UPCOMING : Int := 0
def ONGOING : Int := 1
def COMPLETED : Int := 2
def CANCELED : Int := 3

end EventStatus

/-- First-match lookup in the association list (std::map::find). -/
def mapLookup : List (Int × Int) → Int → Option Int
  | [], _ => none
  | (a, b) :: rest, k => if a = k then some b else mapLookup rest k

/-- `allocatedInventory[k] += q`: ordered insert-or-add, mirroring
`std::map::operator[]` followed by `+=`. -/
def mapAddAt : List (Int × Int) → Int → Int → List (Int × Int)
  | [], k, q => [(k, q)]
  | (a, b) :: rest, k, q =>
    if k < a then (k, q) :: (a, b) :: rest
    else if k = a then (a, b + q) :: rest
    else (a, b) :: mapAddAt rest k q

/-- `allocatedInventory[k] = v`: ordered insert-or-overwrite, mirroring
`std::map::operator[]` followed by assignment. -/
def mapSetAt : List (Int × Int) → Int → Int → List (Int × Int)
  | [], k, v => [(k, v)]
  | (a, b) :: rest, k, v =>
    if k < a then (k, v) :: (a, b) :: rest
    else if k = a then (a, v) :: rest
    else (a, b) :: mapSetAt rest k v

/-- The body of `Event::deallocateInventoryItem` once the entry search
runs: on the first entry with key `k`, remove `min` of the stored and the
requested quantity, erasing the entry when it reaches zero; returns the
amount actually removed. -/
def mapSubErase : List (Int × Int) → Int → Int → Int × List (Int × Int)
  | [], _, _ => (0, [])
  | (a, b) :: rest, k, q =>
    if a = k then
      let actual := min b q
      if b - actual ≤ 0 then (actual, rest) else (actual, (a, b - actual) :: rest)
    else
      let (x, m) := mapSubErase rest k q
      (x, (a, b) :: m)

structure Event where
  eventId : Int
  name : String
  date : String
  time : String
  location : String
  description : String
  category : String
  status : Int
  attendeeIds : List Int
  allocatedInventory : List (Int × Int)
deriving DecidableEq, Repr

namespace Event

/-- `Event::addAttendee`: appends unless the id is already registered. -/
def addAttendee (e : Event) (attendeeId : Int) : Event :=
  if attendeeId ∈ e.attendeeIds then e
  else { e with attendeeIds := e.attendeeIds ++ [attendeeId] }

/-- `Event::removeAttendee`: erases the first occurrence of the id. -/
def removeAttendee (e : Event) (attendeeId : Int) : Event :=
  { e with attendeeIds := e.attendeeIds.eraseP (fun x => x = attendeeId) }

/-- `Event::allocateInventoryItem`. -/
def allocateInventoryItem (e : Event) (itemId quantity : Int) : Event :=
  if quantity ≤ 0 then e
  else { e with allocatedInventory := mapAddAt e.allocatedInventory itemId quantity }

/-- `Event::deallocateInventoryItem`: returns the quantity actually
removed from this event's record together with the updated event. -/
def deallocateInventoryItem (e : Event) (itemId quantityToDeallocate : Int) :
    Int × Event :=
  if quantityToDeallocate ≤ 0 then (0, e)
  else
    let (actual, m) := mapSubErase e.allocatedInventory itemId quantityToDeallocate
    (actual, { e with allocatedInventory := m })

/-- `Event::attendeesToString`: ids separated by `';'`. -/
def attendeesEncode (e : Event) : String :=
  String.mk (joinSep (e.attendeeIds.map (fun i => (intToString i).data)) ';')
where
  /-- join char-lists with a separator character. -/
  joinSep : List (List Char) → Char → List Char
    | [], _ => []
    | [x], _ => x
    | x :: y :: rest, d => x ++ d :: joinSep (y :: rest) d

/-- `Event::inventoryToString`: `itemId:quantity` pairs separated by `';'`. -/
def inventoryEncode (e : Event) : String :=
  String.mk (attendeesEncode.joinSep
    (e.allocatedInventory.map
      (fun p => (intToString p.1).data ++ ':' :: (intToString p.2).data)) ';')

/-- `Event::toString`: the ten fields joined by commas. -/
def encode (e : Event) : String :=
  intToString e.eventId ++ "," ++ e.name ++ "," ++ e.date ++ "," ++ e.time ++ ","
    ++ e.location ++ "," ++ e.description ++ "," ++ e.category ++ ","
    ++ intToString e.status ++ "," ++ e.attendeesEncode ++ "," ++ e.inventoryEncode

/-- The attendee-id parsing loop of `Event::fromString`: empty segments
are skipped, and a `std::stoi` throw (no digits) escapes uncaught. -/
def parseAttendeeIds : List (List Char) → Option (List Int)
  | [] => some []
  | seg :: rest =>
    if seg = [] then parseAttendeeIds rest
    else
      match stoi (String.mk seg) with
      | none => none
      | some i => (parseAttendeeIds rest).map (i :: ·)

/-- One inventory segment of `Event::fromString`: requires a colon, then
`std::stoi` on both sides; a parse failure is caught and the entry is
skipped (`none`). -/
def parseInvEntry (seg : List Char) : Option (Int × Int) :=
  if ':' ∈ seg then
    let k := seg.takeWhile (· ≠ ':')
    let v := (seg.dropWhile (· ≠ ':')).drop 1
    match stoi (String.mk k), stoi (String.mk v) with
    | some a, some b => some (a, b)
    | _, _ => none
  else none

/-- The inventory parsing loop of `Event::fromString`: skipped entries
leave the map unchanged; parsed entries are assigned into the map. -/
def parseInventory (cs : List Char) : List (Int × Int) :=
  (splitSep cs ';').foldl
    (fun m seg =>
      if seg = [] then m
      else
        match parseInvEntry seg with
        | some (k, v) => mapSetAt m k v
        | none => m)
    []

/-- `Event::fromString`. The first eight fields split at commas; the
ninth `std::getline` is checked (on failure both collection fields stay
empty); the tenth reads to end of line. `std::stoi` throws on the id,
status and attendee-id fields escape uncaught (`none`). -/
def decode (s : String) : Option Event :=
  let (f1, r1) := splitField s.data ','
  let (f2, r2) := splitField r1 ','
  let (f3, r3) := splitField r2 ','
  let (f4, r4) := splitField r3 ','
  let (f5, r5) := splitField r4 ','
  let (f6, r6) := splitField r5 ','
  let (f7, r7) := splitField r6 ','
  let (f8, r8) := splitField r7 ','
  let (attS, invS) := if r8 = [] then ([], []) else splitField r8 ','
  match stoi (String.mk f1), stoi (String.mk f8) with
  | some id, some status =>
    match parseAttendeeIds (splitSep attS ';') with
    | none => none
    | some ids =>
      some { eventId := id, name := String.mk f2, date := String.mk f3,
             time := String.mk f4, location := String.mk f5,
             description := String.mk f6, category := String.mk f7,
             status := status, attendeeIds := ids,
             allocatedInventory := parseInventory invS }
  | _, _ => none

/-- Fields of an event record as the running program keeps them: the
string fields positioned before the terminal field contain no delimiter
(spec §4.2), and the allocation map carries the `std::map` key order. -/
def wf (e : Event) : Prop :=
  ',' ∉ e.name.data ∧ ',' ∉ e.date.data ∧ ',' ∉ e.time.data ∧ ',' ∉ e.location.data ∧
  ',' ∉ e.description.data ∧ ',' ∉ e.category.data ∧
  e.allocatedInventory.Pairwise (fun p q => p.1 < q.1)

instance (e : Event) : Decidable e.wf := by
  unfold wf; infer_instance

/-- A well-formed persisted event line: one the program itself writes for
a well-formed record. -/
def wfLine (line : String) : Prop :=
  ∃ e : Event, e.wf ∧ Event.encode e = line

end Event

/-! ### Users and the System state (src/test.cpp lines 111-173, 550-1603) -/

inductive Role where
  | ADMIN
  | REGULAR_USER
  | NONE
deriving DecidableEq, Repr

structure UserRec where
  userId : Int
  username : String
  password : String
  role : Role
deriving DecidableEq, Repr

/-- The `System` collections relevant to the claims, together with the
static `Attendee::nextAttendeeId` counter and the current login. -/
structure SystemState where
  events : List Event
  inventory : List InventoryItem
  allAttendees : List Attendee
  nextAttendeeId : Int
  currentUser : Option UserRec
deriving DecidableEq, Repr

/-- `System::findEventById`: first event with the id. -/
def findEventById : List Event → Int → Option Event
  | [], _ => none
  | e :: rest, eid => if e.eventId = eid then some e else findEventById rest eid

/-- Mutation through the pointer returned by `findEventById`: update the
first matching event in place. -/
def updateFirstEvent : List Event → Int → (Event → Event) → List Event
  | [], _, _ => []
  | e :: rest, eid, f =>
    if e.eventId = eid then f e :: rest else e :: updateFirstEvent rest eid f

/-- `System::findInventoryItemById`. -/
def findItemById : List InventoryItem → Int → Option InventoryItem
  | [], _ => none
  | it :: rest, iid => if it.itemId = iid then some it else findItemById rest iid

/-- Update the first matching inventory item in place. -/
def updateFirstItem : List InventoryItem → Int → (InventoryItem → InventoryItem) →
    List InventoryItem
  | [], _, _ => []
  | it :: rest, iid, f =>
    if it.itemId = iid then f it :: rest else it :: updateFirstItem rest iid f

/-- `System::findAttendeeInMasterList`. -/
def findAttendeeById : List Attendee → Int → Option Attendee
  | [], _ => none
  | a :: rest, aid => if a.attendeeId = aid then some a else findAttendeeById rest aid

/-- Update the first matching attendee in place. -/
def updateFirstAttendee : List Attendee → Int → (Attendee → Attendee) → List Attendee
  | [], _, _ => []
  | a :: rest, aid, f =>
    if a.attendeeId = aid then f a :: rest else a :: updateFirstAttendee rest aid f

/-- The allocate branch of `System::trackInventoryAllocationToEvent`
(lines 1452-1461), acting on the item/event pair in hand: reserve from
the item's pool and, only on success, record the quantity in the event's
map. The `Bool` is `item->allocate`'s result. -/
def allocatePair (it : InventoryItem) (e : Event) (qty : Int) :
    Bool × InventoryItem × Event :=
  let (ok, it') := it.allocate qty
  if ok then (true, it', e.allocateInventoryItem it.itemId qty)
  else (false, it', e)

/-- The deallocate branch of `System::trackInventoryAllocationToEvent`
(lines 1462-1477): nothing happens when the event holds none of the item;
otherwise the event record is reduced first and the item counter is
returned to the pool only when a positive amount came back. The `Int` is
the actual deallocated amount. -/
def deallocatePair (it : InventoryItem) (e : Event) (qty : Int) :
    Int × InventoryItem × Event :=
  let cur := (mapLookup e.allocatedInventory it.itemId).getD 0
  if cur = 0 then (0, it, e)
  else
    let (actual, e') := e.deallocateInventoryItem it.itemId qty
    if 0 < actual then (actual, (it.deallocate actual).2, e')
    else (actual, it, e')

/-- `System::trackInventoryAllocationToEvent`, choice 1 (allocate), with
the interactive lookups made explicit: missing event/item or a closed
event leaves the state unchanged. -/
def trackAllocate (st : SystemState) (eventId itemId qty : Int) : SystemState :=
  match findEventById st.events eventId with
  | none => st
  | some ev =>
    if ev.status = EventStatus.COMPLETED ∨ ev.status = EventStatus.CANCELED then st
    else
      match findItemById st.inventory itemId with
      | none => st
      | some it =>
        let (ok, it', ev') := allocatePair it ev qty
        if ok then
          { st with inventory := updateFirstItem st.inventory itemId (fun _ => it'),
                    events := updateFirstEvent st.events eventId (fun _ => ev') }
        else st

/-- `System::trackInventoryAllocationToEvent`, choice 2 (deallocate).
The event's record is written back even when the actual amount is not
positive, exactly as the C++ mutates through the event pointer. -/
def trackDeallocate (st : SystemState) (eventId itemId qty : Int) : SystemState :=
  match findEventById st.events eventId with
  | none => st
  | some ev =>
    if ev.status = EventStatus.COMPLETED ∨ ev.status = EventStatus.CANCELED then st
    else
      match findItemById st.inventory itemId with
      | none => st
      | some it =>
        let (_, it', ev') := deallocatePair it ev qty
        { st with inventory := updateFirstItem st.inventory itemId (fun _ => it'),
                  events := updateFirstEvent st.events eventId (fun _ => ev') }

/-- `System::deleteEvent` (lines 947-988): deallocate every map entry of
the first event with the id against its item (missing items are skipped),
clear that event's map, then erase every event with the id. -/
def deleteEvent (st : SystemState) (eventId : Int) : SystemState :=
  match findEventById st.events eventId with
  | none => st
  | some ev =>
    let inv' := ev.allocatedInventory.foldl
      (fun inv p => updateFirstItem inv p.1 (fun it => (it.deallocate p.2).2)) st.inventory
    let evs := updateFirstEvent st.events eventId (fun e => { e with allocatedInventory := [] })
    { st with inventory := inv',
              events := evs.filter (fun e => ¬ e.eventId = eventId) }

/-- Outcome of `System::registerAttendeeForEvent`. -/
inductive RegOutcome where
  | notFound
  | closed
  | registered (attendeeId : Int)
deriving DecidableEq, Repr

/-- `System::registerAttendeeForEvent` (lines 1030-1086), with the
prompted event id, attendee name and contact info as parameters. A
regular user registers under their own user id (reusing or creating the
master-list profile); any other caller creates a guest attendee under a
fresh id from the static counter. -/
def registerAttendeeForEvent (st : SystemState) (eventId : Int)
    (inName inContact : String) : RegOutcome × SystemState :=
  match findEventById st.events eventId with
  | none => (.notFound, st)
  | some ev =>
    if ¬ (ev.status = EventStatus.UPCOMING ∨ ev.status = EventStatus.ONGOING) then
      (.closed, st)
    else
      let regularSelf : Option UserRec :=
        match st.currentUser with
        | some u => if u.role = Role.REGULAR_USER then some u else none
        | none => none
      match regularSelf with
      | some u =>
        let aid := u.userId
        let st1 :=
          match findAttendeeById st.allAttendees aid with
          | some _ =>
            { st with allAttendees := (updateFirstAttendee st.allAttendees aid
                (fun a => { a with eventIdRegisteredFor := eventId })) }
          | none =>
            { st with
                allAttendees :=
                  st.allAttendees ++ [(⟨aid, u.username, inContact, eventId, false⟩ : Attendee)],
                nextAttendeeId :=
                  if st.nextAttendeeId ≤ aid then aid + 1 else st.nextAttendeeId }
        (.registered aid,
          { st1 with events := updateFirstEvent st1.events eventId (·.addAttendee aid) })
      | none =>
        let aid := st.nextAttendeeId
        let st1 :=
          { st with
              allAttendees :=
                st.allAttendees ++ [(⟨aid, inName, inContact, eventId, false⟩ : Attendee)],
              nextAttendeeId := st.nextAttendeeId + 1 }
        (.registered aid,
          { st1 with events := updateFirstEvent st1.events eventId (·.addAttendee aid) })

/-- `System::cancelOwnRegistration` (lines 1088-1141), with the prompted
event id as a parameter: only a logged-in regular user on an open event
they are registered for removes their membership, and when their profile's
primary event pointed at this event it is cleared and the checked-in flag
reset to false. -/
def cancelOwnRegistration (st : SystemState) (eventIdToCancel : Int) : SystemState :=
  match st.currentUser with
  | none => st
  | some u =>
    if ¬ u.role = Role.REGULAR_USER then st
    else
      let aid := u.userId
      match findEventById st.events eventIdToCancel with
      | none => st
      | some ev =>
        if ev.status = EventStatus.COMPLETED ∨ ev.status = EventStatus.CANCELED then st
        else if aid ∈ ev.attendeeIds then
          { st with
              events := updateFirstEvent st.events eventIdToCancel (·.removeAttendee aid),
              allAttendees := updateFirstAttendee st.allAttendees aid
                (fun a =>
                  if a.eventIdRegisteredFor = eventIdToCancel then
                    { a with eventIdRegisteredFor := 0, isCheckedIn := false }
                  else a) }
        else st

/-- `System::checkInAttendeeForEvent` (lines 1173-1236), with the
prompted ids and the "mark Ongoing?" confirmation as parameters. -/
def checkInAttendeeForEvent (st : SystemState) (eventId attendeeId : Int)
    (confirmOngoing : Bool) : SystemState :=
  match findEventById st.events eventId with
  | none => st
  | some ev =>
    if ev.status = EventStatus.COMPLETED ∨ ev.status = EventStatus.CANCELED then st
    else if ev.status = EventStatus.UPCOMING ∧ ¬ confirmOngoing then st
    else
      let st1 :=
        if ev.status = EventStatus.UPCOMING then
          { st with events := (updateFirstEvent st.events eventId
              (fun e => { e with status := EventStatus.ONGOING })) }
        else st
      if attendeeId ∈ ev.attendeeIds then
        { st1 with allAttendees :=
            updateFirstAttendee st1.allAttendees attendeeId Attendee.checkIn }
      else st1

/-! ### The conservation invariant (spec §3 / §8) -/

/-- The allocation an event records for an item id (0 when absent). -/
def eventAlloc (e : Event) (itemId : Int) : Int :=
  (mapLookup e.allocatedInventory itemId).getD 0

/-- Sum over all events of the recorded allocation for an item id. -/
def sumAlloc (es : List Event) (itemId : Int) : Int :=
  (es.map (fun e => eventAlloc e itemId)).sum

/-- Conservation: every item's allocated counter equals the sum of the
allocations recorded for it across all events. -/
def conservation (st : SystemState) : Prop :=
  ∀ it ∈ st.inventory, it.allocatedQuantity = sumAlloc st.events it.itemId

instance (st : SystemState) : Decidable (conservation st) := by
  unfold conservation; infer_instance

/-- Structural well-formedness the C++ containers provide for free plus
nonnegativity of recorded allocations: event ids and item ids are
pairwise distinct, and every `std::map` has strictly increasing keys with
nonnegative values. -/
def mapsWellFormed (st : SystemState) : Prop :=
  (st.events.map (·.eventId)).Nodup ∧
  (st.inventory.map (·.itemId)).Nodup ∧
  (∀ e ∈ st.events, e.allocatedInventory.Pairwise (fun p q => p.1 < q.1)) ∧
  (∀ e ∈ st.events, ∀ p ∈ e.allocatedInventory, 0 ≤ p.2)

instance (st : SystemState) : Decidable (mapsWellFormed st) := by
  unfold mapsWellFormed; infer_instance

/-- One step of the allocation engine, as exercised by the conservation
claim: allocate, deallocate, or delete an event. -/
inductive AllocOp where
  | alloc (eventId itemId qty : Int)
  | dealloc (eventId itemId qty : Int)
  | del (eventId : Int)
deriving DecidableEq, Repr

def applyAllocOp (st : SystemState) : AllocOp → SystemState
  | .alloc eventId itemId qty => trackAllocate st eventId itemId qty
  | .dealloc eventId itemId qty => trackDeallocate st eventId itemId qty
  | .del eventId => deleteEvent st eventId

def applyAllocOps (st : SystemState) (ops : List AllocOp) : SystemState :=
  ops.foldl applyAllocOp st

end EMS

namespace EMS

/-! ### Basic lemmas about the decimal codec -/

theorem digitChar_isDigit {d : Nat} (h : d < 10) : (digitChar d).isDigit = true := by
  interval_cases d <;> decide

theorem digitChar_ne_comma {d : Nat} (h : d < 10) : digitChar d ≠ ',' := by
  interval_cases d <;> decide

theorem digitChar_ne_semi {d : Nat} (h : d < 10) : digitChar d ≠ ';' := by
  interval_cases d <;> decide

theorem digitChar_ne_colon {d : Nat} (h : d < 10) : digitChar d ≠ ':' := by
  interval_cases d <;> decide

theorem digitChar_ne_minus {d : Nat} (h : d < 10) : digitChar d ≠ '-' := by
  interval_cases d <;> decide

theorem charToDigit_digitChar {d : Nat} (h : d < 10) : charToDigit (digitChar d) = d := by
  interval_cases d <;> decide

/-- Every character of `natDigitsRev n` is a decimal digit. -/
theorem natDigitsRev_digits (n : Nat) : ∀ c ∈ natDigitsRev n, c.isDigit = true := by
  induction n using Nat.strong_induction_on with
  | _ n ih =>
    match n with
    | 0 => intro c hc; simp [natDigitsRev] at hc
    | m + 1 =>
      intro c hc
      rw [natDigitsRev] at hc
      rcases List.mem_cons.mp hc with h | h
      · subst h; exact digitChar_isDigit (Nat.mod_lt _ (by norm_num))
      · exact ih ((m + 1) / 10) (Nat.div_lt_self (Nat.succ_pos m) (by norm_num)) c h

theorem valLE_natDigitsRev (n : Nat) : valLE (natDigitsRev n) = n := by
  induction n using Nat.strong_induction_on with
  | _ n ih =>
    match n with
    | 0 => simp [natDigitsRev, valLE]
    | m + 1 =>
      rw [natDigitsRev, valLE,
        charToDigit_digitChar (Nat.mod_lt _ (by norm_num)),
        ih ((m + 1) / 10) (Nat.div_lt_self (Nat.succ_pos m) (by norm_num))]
      omega

theorem digitsToNat_from (acc : Nat) (l : List Char) :
    l.reverse.foldl (fun a c => 10 * a + charToDigit c) acc
      = acc * 10 ^ l.length + valLE l := by
  induction l generalizing acc with
  | nil => simp [valLE]
  | cons c cs ih =>
    rw [List.reverse_cons, List.foldl_append, ih acc]
    simp only [List.foldl, valLE, List.length_cons]
    ring

theorem digitsToNat_reverse (l : List Char) : digitsToNat l.reverse = valLE l := by
  rw [digitsToNat, digitsToNat_from]; simp

/-- `natDigitsRev n` is nonempty for positive `n`. -/
theorem natDigitsRev_ne_nil {n : Nat} (h : 0 < n) : natDigitsRev n ≠ [] := by
  match n, h with
  | m + 1, _ => rw [natDigitsRev]; simp

theorem takeWhile_eq_self_of_all {p : Char → Bool} {l : List Char}
    (h : ∀ c ∈ l, p c = true) : l.takeWhile p = l := by
  induction l with
  | nil => rfl
  | cons c cs ih =>
    rw [List.takeWhile_cons, h c (List.mem_cons_self _ _)]
    simp [ih (fun x hx => h x (List.mem_cons_of_mem _ hx))]

/-- Parsing a digit-only rendering recovers the number. -/
theorem parseNatPre_digits (n : Nat) (hn : 0 < n) :
    parseNatPre (natDigitsRev n).reverse = some n := by
  have hne : (natDigitsRev n).reverse ≠ [] := by
    simp [List.reverse_eq_nil_iff]; exact natDigitsRev_ne_nil hn
  match hrev : (natDigitsRev n).reverse with
  | [] => exact absurd hrev hne
  | c :: cs =>
    have hall : ∀ x ∈ (natDigitsRev n).reverse, x.isDigit = true := by
      intro x hx; exact natDigitsRev_digits n x (List.mem_reverse.mp hx)
    have hc : c.isDigit = true := hall c (by rw [hrev]; exact List.mem_cons_self _ _)
    rw [parseNatPre, hc]
    simp only [if_pos]
    rw [← hrev, takeWhile_eq_self_of_all hall, digitsToNat_reverse, valLE_natDigitsRev]

theorem stoi_natToString (n : Nat) : stoi (natToString n) = some (n : Int) := by
  by_cases h : n = 0
  · subst h; decide
  · have hn : 0 < n := Nat.pos_of_ne_zero h
    rw [natToString, if_neg h, stoi]
    have hdata : (String.mk (natDigitsRev n).reverse).data = (natDigitsRev n).reverse := rfl
    rw [hdata]
    match hrev : (natDigitsRev n).reverse with
    | [] =>
      exact absurd (List.reverse_eq_nil_iff.mp hrev) (natDigitsRev_ne_nil hn)
    | c :: cs =>
      have hc : c ∈ natDigitsRev n := List.mem_reverse.mp (by rw [hrev]; exact List.mem_cons_self _ _)
      have : c ≠ '-' := by
        have := natDigitsRev_digits n c hc
        intro hcm; rw [hcm] at this; exact absurd this (by decide)
      have hmatch : (match c :: cs with
          | '-' :: rest => (parseNatPre rest).map (fun n => -Int.ofNat n)
          | l => (parseNatPre l).map Int.ofNat)
          = (parseNatPre (c :: cs)).map Int.ofNat := by
        split
        · next heq => rw [List.cons.injEq] at heq; exact absurd heq.1 this
        · rfl
      rw [hmatch, ← hrev, parseNatPre_digits n hn]
      rfl

/-- The printed characters of an `int` are digits or a minus sign. -/
theorem intToString_chars (i : Int) :
    ∀ c ∈ (intToString i).data, c.isDigit = true ∨ c = '-' := by
  have hnat : ∀ n : Nat, ∀ c ∈ (natToString n).data, c.isDigit = true := by
    intro n c hc
    rw [natToString] at hc
    by_cases h : n = 0
    · rw [if_pos h] at hc
      simp only [String.data] at hc
      rcases List.mem_singleton.mp hc with rfl
      decide
    · rw [if_neg h] at hc
      have : c ∈ (natDigitsRev n).reverse := hc
      exact natDigitsRev_digits n c (List.mem_reverse.mp this)
  intro c hc
  rw [intToString] at hc
  by_cases h : i < 0
  · rw [if_pos h] at hc
    have : c ∈ ('-' :: (natToString i.natAbs).data) := hc
    rcases List.mem_cons.mp this with rfl | hmem
    · right; rfl
    · left; exact hnat _ c hmem
  · rw [if_neg h] at hc
    left; exact hnat _ c hc

theorem intToString_ne_nil (i : Int) : (intToString i).data ≠ [] := by
  rw [intToString]
  by_cases h : i < 0
  · rw [if_pos h]; intro hcon; exact List.cons_ne_nil _ _ hcon
  · rw [if_neg h, natToString]
    by_cases h0 : i.toNat = 0
    · rw [if_pos h0]; decide
    · rw [if_neg h0]
      intro hcon
      exact natDigitsRev_ne_nil (Nat.pos_of_ne_zero h0) (List.reverse_eq_nil_iff.mp hcon)

theorem comma_not_mem_intToString (i : Int) : ',' ∉ (intToString i).data := by
  intro h
  rcases intToString_chars i ',' h with hd | hd <;> exact absurd hd (by decide)

theorem semi_not_mem_intToString (i : Int) : ';' ∉ (intToString i).data := by
  intro h
  rcases intToString_chars i ';' h with hd | hd <;> exact absurd hd (by decide)

theorem colon_not_mem_intToString (i : Int) : ':' ∉ (intToString i).data := by
  intro h
  rcases intToString_chars i ':' h with hd | hd <;> exact absurd hd (by decide)

/-- Round trip of the integer codec: parsing the printed form of any
`int` gives back the same value. -/
theorem stoi_intToString (i : Int) : stoi (intToString i) = some i := by
  by_cases h : i < 0
  · rw [intToString, if_pos h]
    have habs : 0 < i.natAbs := by omega
    have hns : natToString i.natAbs = String.mk (natDigitsRev i.natAbs).reverse := by
      rw [natToString, if_neg (by omega)]
    rw [hns]
    have hdata : (("-" : String) ++ String.mk (natDigitsRev i.natAbs).reverse).data
        = '-' :: (natDigitsRev i.natAbs).reverse := rfl
    rw [stoi, hdata]
    show (parseNatPre (natDigitsRev i.natAbs).reverse).map (fun n => -Int.ofNat n) = some i
    rw [parseNatPre_digits i.natAbs habs]
    simp only [Option.map_some', Int.ofNat_eq_natCast]
    congr 1
    omega
  · rw [intToString, if_neg h]
    rw [stoi_natToString]
    congr 1
    omega

/-! ### Splitting lemmas -/

theorem data_append (a b : String) : (a ++ b).data = a.data ++ b.data := rfl

theorem mk_data (s : String) : String.mk s.data = s := rfl

theorem takeWhile_append_delim {d : Char} {f rest : List Char} (h : d ∉ f) :
    (f ++ d :: rest).takeWhile (· ≠ d) = f := by
  induction f with
  | nil => simp [List.takeWhile_cons]
  | cons c cs ih =>
    have hc : c ≠ d := fun hcd => h (hcd ▸ List.mem_cons_self _ _)
    simp only [List.cons_append, List.takeWhile_cons, decide_eq_true_eq]
    rw [if_pos hc, ih (fun hm => h (List.mem_cons_of_mem _ hm))]

theorem dropWhile_append_delim {d : Char} {f rest : List Char} (h : d ∉ f) :
    (f ++ d :: rest).dropWhile (· ≠ d) = d :: rest := by
  induction f with
  | nil => simp [List.dropWhile_cons]
  | cons c cs ih =>
    have hc : c ≠ d := fun hcd => h (hcd ▸ List.mem_cons_self _ _)
    simp only [List.cons_append, List.dropWhile_cons, decide_eq_true_eq]
    rw [if_pos hc, ih (fun hm => h (List.mem_cons_of_mem _ hm))]

theorem splitField_append {d : Char} {f rest : List Char} (h : d ∉ f) :
    splitField (f ++ d :: rest) d = (f, rest) := by
  rw [splitField, takeWhile_append_delim h, dropWhile_append_delim h]
  rfl

theorem splitField_no_delim {d : Char} {f : List Char} (h : d ∉ f) :
    splitField f d = (f, []) := by
  rw [splitField, takeWhile_eq_self_of_all, List.dropWhile_eq_nil_iff.mpr]
  · rfl
  · intro x hx; simp only [decide_eq_true_eq]; exact fun hxd => h (hxd ▸ hx)
  · intro x hx; simp only [decide_eq_true_eq]; exact fun hxd => h (hxd ▸ hx)

/-! ### Association map lemmas (the std::map model) -/

/-- Keys of a strictly sorted pair list are distinct. -/
theorem keys_nodup {m : List (Int × Int)}
    (hs : m.Pairwise (fun p q => p.1 < q.1)) : (m.map Prod.fst).Nodup :=
  List.Pairwise.map Prod.fst (fun _ _ hab => ne_of_lt hab) hs

theorem mapLookup_eq_none {m : List (Int × Int)} {k : Int}
    (h : ∀ p ∈ m, p.1 ≠ k) : mapLookup m k = none := by
  induction m with
  | nil => rfl
  | cons p rest ih =>
    rw [show mapLookup (p :: rest) k = (if p.1 = k then some p.2 else mapLookup rest k) from rfl,
      if_neg (h p (List.mem_cons_self _ _)), ih (fun q hq => h q (List.mem_cons_of_mem _ hq))]

theorem mapLookup_mem {m : List (Int × Int)} {k b : Int}
    (h : mapLookup m k = some b) : (k, b) ∈ m := by
  induction m with
  | nil => exact absurd h (by simp [mapLookup])
  | cons p rest ih =>
    rw [show mapLookup (p :: rest) k = (if p.1 = k then some p.2 else mapLookup rest k) from rfl] at h
    by_cases hp : p.1 = k
    · rw [if_pos hp] at h
      have : p = (k, b) := by
        rcases p with ⟨a, c⟩
        injection h with h2
        simp only at hp h2
        simp [hp, h2]
      exact this ▸ List.mem_cons_self _ _
    · rw [if_neg hp] at h
      exact List.mem_cons_of_mem _ (ih h)

theorem mapLookup_pre {pre post : List (Int × Int)} {k b : Int}
    (h : ∀ p ∈ pre, p.1 ≠ k) : mapLookup (pre ++ (k, b) :: post) k = some b := by
  induction pre with
  | nil => simp [mapLookup]
  | cons p rest ih =>
    rw [List.cons_append,
      show mapLookup (p :: (rest ++ (k, b) :: post)) k
        = (if p.1 = k then some p.2 else mapLookup (rest ++ (k, b) :: post) k) from rfl,
      if_neg (h p (List.mem_cons_self _ _)), ih (fun q hq => h q (List.mem_cons_of_mem _ hq))]

theorem mapLookup_append_right {pre post : List (Int × Int)} {k : Int}
    (h : ∀ p ∈ pre, p.1 ≠ k) : mapLookup (pre ++ post) k = mapLookup post k := by
  induction pre with
  | nil => rfl
  | cons p rest ih =>
    rw [List.cons_append,
      show mapLookup (p :: (rest ++ post)) k
        = (if p.1 = k then some p.2 else mapLookup (rest ++ post) k) from rfl,
      if_neg (h p (List.mem_cons_self _ _)), ih (fun q hq => h q (List.mem_cons_of_mem _ hq))]

theorem mapLookup_decomp {m : List (Int × Int)} {k b : Int}
    (h : mapLookup m k = some b) :
    ∃ pre post, m = pre ++ (k, b) :: post ∧ ∀ p ∈ pre, p.1 ≠ k := by
  induction m with
  | nil => exact absurd h (by simp [mapLookup])
  | cons p rest ih =>
    rw [show mapLookup (p :: rest) k = (if p.1 = k then some p.2 else mapLookup rest k) from rfl] at h
    by_cases hp : p.1 = k
    · rw [if_pos hp] at h
      injection h with h2
      refine ⟨[], rest, ?_, by simp⟩
      rcases p with ⟨a, c⟩
      simp only at hp h2
      simp [hp, h2]
    · rw [if_neg hp] at h
      obtain ⟨pre, post, heq, hpre⟩ := ih h
      exact ⟨p :: pre, post, by rw [heq, List.cons_append],
        fun q hq => by
          rcases List.mem_cons.mp hq with rfl | hq'
          · exact hp
          · exact hpre q hq'⟩

theorem mapLookup_nonneg {m : List (Int × Int)} {k : Int}
    (h : ∀ p ∈ m, 0 ≤ p.2) : 0 ≤ (mapLookup m k).getD 0 := by
  match hm : mapLookup m k with
  | none => simp
  | some b => simpa using h _ (mapLookup_mem hm)

theorem mapLookup_sorted_of_mem {m : List (Int × Int)}
    (hs : m.Pairwise (fun p q => p.1 < q.1)) {p : Int × Int} (hp : p ∈ m) :
    mapLookup m p.1 = some p.2 := by
  induction m with
  | nil => exact absurd hp (List.not_mem_nil _)
  | cons q rest ih =>
    rcases List.mem_cons.mp hp with rfl | hp'
    · rw [show mapLookup (p :: rest) p.1 = (if p.1 = p.1 then some p.2 else mapLookup rest p.1) from rfl,
        if_pos rfl]
    · have hlt : q.1 < p.1 := (List.pairwise_cons.mp hs).1 p hp'
      rw [show mapLookup (q :: rest) p.1 = (if q.1 = p.1 then some q.2 else mapLookup rest p.1) from rfl,
        if_neg (ne_of_lt hlt), ih (List.pairwise_cons.mp hs).2 hp']

theorem mapAddAt_lookup_self {m : List (Int × Int)} {k q : Int}
    (hs : m.Pairwise (fun p q => p.1 < q.1)) :
    mapLookup (mapAddAt m k q) k = some ((mapLookup m k).getD 0 + q) := by
  induction m with
  | nil => simp [mapAddAt, mapLookup]
  | cons p rest ih =>
    obtain ⟨hrel, hrest⟩ := List.pairwise_cons.mp hs
    rw [show mapAddAt (p :: rest) k q
      = (if k < p.1 then (k, q) :: p :: rest
         else if k = p.1 then (p.1, p.2 + q) :: rest
         else p :: mapAddAt rest k q) from by rcases p with ⟨a, b⟩; rfl]
    by_cases h1 : k < p.1
    · rw [if_pos h1]
      have hnone : mapLookup (p :: rest) k = none := by
        refine mapLookup_eq_none (fun x hx => ?_)
        rcases List.mem_cons.mp hx with rfl | hx'
        · omega
        · have := hrel x hx'; omega
      rw [show mapLookup ((k, q) :: p :: rest) k
        = (if k = k then some q else mapLookup (p :: rest) k) from rfl, if_pos rfl, hnone]
      simp
    · rw [if_neg h1]
      by_cases h2 : k = p.1
      · rw [if_pos h2]
        rw [show mapLookup ((p.1, p.2 + q) :: rest) k
          = (if p.1 = k then some (p.2 + q) else mapLookup rest k) from rfl,
          if_pos h2.symm,
          show mapLookup (p :: rest) k = (if p.1 = k then some p.2 else mapLookup rest k) from rfl,
          if_pos h2.symm]
        rfl
      · rw [if_neg h2]
        rw [show mapLookup (p :: mapAddAt rest k q) k
          = (if p.1 = k then some p.2 else mapLookup (mapAddAt rest k q) k) from rfl,
          if_neg (fun hc => h2 hc.symm),
          show mapLookup (p :: rest) k = (if p.1 = k then some p.2 else mapLookup rest k) from rfl,
          if_neg (fun hc => h2 hc.symm), ih hrest]

theorem mapAddAt_lookup_other {m : List (Int × Int)} {k q k' : Int} (h : k' ≠ k) :
    mapLookup (mapAddAt m k q) k' = mapLookup m k' := by
  induction m with
  | nil =>
    rw [show mapAddAt [] k q = [(k, q)] from rfl]
    rw [show mapLookup [(k, q)] k' = (if k = k' then some q else mapLookup [] k') from rfl,
      if_neg (fun hc => h hc.symm)]
  | cons p rest ih =>
    rw [show mapAddAt (p :: rest) k q
      = (if k < p.1 then (k, q) :: p :: rest
         else if k = p.1 then (p.1, p.2 + q) :: rest
         else p :: mapAddAt rest k q) from by rcases p with ⟨a, b⟩; rfl]
    by_cases h1 : k < p.1
    · rw [if_pos h1]
      rw [show mapLookup ((k, q) :: p :: rest) k'
        = (if k = k' then some q else mapLookup (p :: rest) k') from rfl,
        if_neg (fun hc => h hc.symm)]
    · rw [if_neg h1]
      by_cases h2 : k = p.1
      · rw [if_pos h2]
        rw [show mapLookup ((p.1, p.2 + q) :: rest) k'
          = (if p.1 = k' then some (p.2 + q) else mapLookup rest k') from rfl,
          show mapLookup (p :: rest) k' = (if p.1 = k' then some p.2 else mapLookup rest k') from rfl,
          if_neg (fun hc => h (h2 ▸ hc).symm), if_neg (fun hc => h (h2 ▸ hc).symm)]
      · rw [if_neg h2]
        rw [show mapLookup (p :: mapAddAt rest k q) k'
          = (if p.1 = k' then some p.2 else mapLookup (mapAddAt rest k q) k') from rfl,
          show mapLookup (p :: rest) k' = (if p.1 = k' then some p.2 else mapLookup rest k') from rfl,
          ih]

theorem mapAddAt_mem {m : List (Int × Int)} {k q : Int} {x : Int × Int}
    (hx : x ∈ mapAddAt m k q) :
    x ∈ m ∨ x = (k, q) ∨ ∃ b, (k, b) ∈ m ∧ x = (k, b + q) := by
  induction m with
  | nil =>
    rw [show mapAddAt [] k q = [(k, q)] from rfl] at hx
    rcases List.mem_singleton.mp hx with rfl
    exact Or.inr (Or.inl rfl)
  | cons p rest ih =>
    rw [show mapAddAt (p :: rest) k q
      = (if k < p.1 then (k, q) :: p :: rest
         else if k = p.1 then (p.1, p.2 + q) :: rest
         else p :: mapAddAt rest k q) from by rcases p with ⟨a, b⟩; rfl] at hx
    by_cases h1 : k < p.1
    · rw [if_pos h1] at hx
      rcases List.mem_cons.mp hx with rfl | hx'
      · exact Or.inr (Or.inl rfl)
      · exact Or.inl hx'
    · rw [if_neg h1] at hx
      by_cases h2 : k = p.1
      · rw [if_pos h2] at hx
        rcases List.mem_cons.mp hx with rfl | hx'
        · refine Or.inr (Or.inr ⟨p.2, ?_, by rw [h2]⟩)
          rw [h2]
          exact List.mem_cons_self _ _
        · exact Or.inl (List.mem_cons_of_mem _ hx')
      · rw [if_neg h2] at hx
        rcases List.mem_cons.mp hx with rfl | hx'
        · exact Or.inl (List.mem_cons_self _ _)
        · rcases ih hx' with hm | hkq | ⟨b, hb, hxb⟩
          · exact Or.inl (List.mem_cons_of_mem _ hm)
          · exact Or.inr (Or.inl hkq)
          · exact Or.inr (Or.inr ⟨b, List.mem_cons_of_mem _ hb, hxb⟩)

theorem mapAddAt_pairwise {m : List (Int × Int)} {k q : Int}
    (hs : m.Pairwise (fun p q => p.1 < q.1)) :
    (mapAddAt m k q).Pairwise (fun p q => p.1 < q.1) := by
  induction m with
  | nil => simp [mapAddAt]
  | cons p rest ih =>
    obtain ⟨hrel, hrest⟩ := List.pairwise_cons.mp hs
    rw [show mapAddAt (p :: rest) k q
      = (if k < p.1 then (k, q) :: p :: rest
         else if k = p.1 then (p.1, p.2 + q) :: rest
         else p :: mapAddAt rest k q) from by rcases p with ⟨a, b⟩; rfl]
    by_cases h1 : k < p.1
    · rw [if_pos h1]
      refine List.pairwise_cons.mpr ⟨?_, hs⟩
      intro x hx
      rcases List.mem_cons.mp hx with rfl | hx'
      · exact h1
      · have := hrel x hx'; omega
    · rw [if_neg h1]
      by_cases h2 : k = p.1
      · rw [if_pos h2]
        exact List.pairwise_cons.mpr ⟨hrel, hrest⟩
      · rw [if_neg h2]
        refine List.pairwise_cons.mpr ⟨?_, ih hrest⟩
        intro x hx
        rcases mapAddAt_mem hx with hm | rfl | ⟨b, hb, rfl⟩
        · exact hrel x hm
        · simp only; omega
        · simp only; omega

theorem mapAddAt_val_nonneg {m : List (Int × Int)} {k q : Int}
    (h0 : ∀ p ∈ m, 0 ≤ p.2) (hq : 0 ≤ q) :
    ∀ p ∈ mapAddAt m k q, 0 ≤ p.2 := by
  intro p hp
  rcases mapAddAt_mem hp with hm | rfl | ⟨b, hb, rfl⟩
  · exact h0 p hm
  · exact hq
  · have := h0 _ hb; simp only at this ⊢; omega

theorem mapSubErase_cons (a bv k q : Int) (rest : List (Int × Int)) :
    mapSubErase ((a, bv) :: rest) k q
      = if a = k then
          (min bv q, if bv - min bv q ≤ 0 then rest else (a, bv - min bv q) :: rest)
        else ((mapSubErase rest k q).1, (a, bv) :: (mapSubErase rest k q).2) := by
  by_cases h : a = k
  · rw [if_pos h]
    simp only [mapSubErase, if_pos h]
    split <;> rfl
  · rw [if_neg h]
    simp only [mapSubErase, if_neg h]

theorem mapSubErase_not_mem {m : List (Int × Int)} {k q : Int}
    (h : ∀ p ∈ m, p.1 ≠ k) : mapSubErase m k q = (0, m) := by
  induction m with
  | nil => rfl
  | cons p rest ih =>
    rcases p with ⟨a, bv⟩
    rw [mapSubErase_cons, if_neg (h (a, bv) (List.mem_cons_self _ _)),
      ih (fun x hx => h x (List.mem_cons_of_mem _ hx))]

theorem mapSubErase_decomp {pre post : List (Int × Int)} {k b q : Int}
    (hpre : ∀ p ∈ pre, p.1 ≠ k) :
    mapSubErase (pre ++ (k, b) :: post) k q
      = (min b q,
         if b - min b q ≤ 0 then pre ++ post else pre ++ (k, b - min b q) :: post) := by
  induction pre with
  | nil =>
    simp only [List.nil_append]
    rw [mapSubErase_cons, if_pos rfl]
  | cons p rest ih =>
    rcases p with ⟨a, c⟩
    rw [List.cons_append, mapSubErase_cons,
      if_neg (hpre (a, c) (List.mem_cons_self _ _)),
      ih (fun x hx => hpre x (List.mem_cons_of_mem _ hx))]
    split <;> simp [List.cons_append]

theorem mapSetAt_append {acc : List (Int × Int)} {k v : Int}
    (h : ∀ p ∈ acc, p.1 < k) : mapSetAt acc k v = acc ++ [(k, v)] := by
  induction acc with
  | nil => rfl
  | cons p rest ih =>
    rw [show mapSetAt (p :: rest) k v
      = (if k < p.1 then (k, v) :: p :: rest
         else if k = p.1 then (p.1, v) :: rest
         else p :: mapSetAt rest k v) from by rcases p with ⟨a, b⟩; rfl]
    have hp := h p (List.mem_cons_self _ _)
    rw [if_neg (by omega), if_neg (by omega),
      ih (fun x hx => h x (List.mem_cons_of_mem _ hx)), List.cons_append]

/-! ### First-match search and in-place update lemmas -/

theorem findEventById_decomp {es : List Event} {eid : Int} {ev : Event}
    (h : findEventById es eid = some ev) :
    ev.eventId = eid ∧ ∃ pre post, es = pre ++ ev :: post ∧ ∀ x ∈ pre, x.eventId ≠ eid := by
  induction es with
  | nil => exact absurd h (by simp [findEventById])
  | cons e rest ih =>
    rw [show findEventById (e :: rest) eid
      = (if e.eventId = eid then some e else findEventById rest eid) from rfl] at h
    by_cases he : e.eventId = eid
    · rw [if_pos he] at h
      injection h with h2
      exact ⟨h2 ▸ he, [], rest, by rw [h2, List.nil_append], by simp⟩
    · rw [if_neg he] at h
      obtain ⟨hid, pre, post, heq, hpre⟩ := ih h
      refine ⟨hid, e :: pre, post, by rw [heq, List.cons_append], fun x hx => ?_⟩
      rcases List.mem_cons.mp hx with rfl | hx'
      · exact he
      · exact hpre x hx'

theorem updateFirstEvent_decomp {pre post : List Event} {eid : Int} {f : Event → Event}
    {ev : Event} (hpre : ∀ x ∈ pre, x.eventId ≠ eid) (hev : ev.eventId = eid) :
    updateFirstEvent (pre ++ ev :: post) eid f = pre ++ f ev :: post := by
  induction pre with
  | nil =>
    simp only [List.nil_append]
    rw [show updateFirstEvent (ev :: post) eid f
      = (if ev.eventId = eid then f ev :: post else ev :: updateFirstEvent post eid f) from rfl,
      if_pos hev]
  | cons e rest ih =>
    rw [List.cons_append,
      show updateFirstEvent (e :: (rest ++ ev :: post)) eid f
      = (if e.eventId = eid then f e :: (rest ++ ev :: post)
         else e :: updateFirstEvent (rest ++ ev :: post) eid f) from rfl,
      if_neg (hpre e (List.mem_cons_self _ _)),
      ih (fun x hx => hpre x (List.mem_cons_of_mem _ hx)), List.cons_append]

theorem findItemById_decomp {inv : List InventoryItem} {iid : Int} {it : InventoryItem}
    (h : findItemById inv iid = some it) :
    it.itemId = iid ∧ ∃ pre post, inv = pre ++ it :: post ∧ ∀ x ∈ pre, x.itemId ≠ iid := by
  induction inv with
  | nil => exact absurd h (by simp [findItemById])
  | cons e rest ih =>
    rw [show findItemById (e :: rest) iid
      = (if e.itemId = iid then some e else findItemById rest iid) from rfl] at h
    by_cases he : e.itemId = iid
    · rw [if_pos he] at h
      injection h with h2
      exact ⟨h2 ▸ he, [], rest, by rw [h2, List.nil_append], by simp⟩
    · rw [if_neg he] at h
      obtain ⟨hid, pre, post, heq, hpre⟩ := ih h
      refine ⟨hid, e :: pre, post, by rw [heq, List.cons_append], fun x hx => ?_⟩
      rcases List.mem_cons.mp hx with rfl | hx'
      · exact he
      · exact hpre x hx'

theorem updateFirstItem_decomp {pre post : List InventoryItem} {iid : Int}
    {f : InventoryItem → InventoryItem} {it : InventoryItem}
    (hpre : ∀ x ∈ pre, x.itemId ≠ iid) (hit : it.itemId = iid) :
    updateFirstItem (pre ++ it :: post) iid f = pre ++ f it :: post := by
  induction pre with
  | nil =>
    simp only [List.nil_append]
    rw [show updateFirstItem (it :: post) iid f
      = (if it.itemId = iid then f it :: post else it :: updateFirstItem post iid f) from rfl,
      if_pos hit]
  | cons e rest ih =>
    rw [List.cons_append,
      show updateFirstItem (e :: (rest ++ it :: post)) iid f
      = (if e.itemId = iid then f e :: (rest ++ it :: post)
         else e :: updateFirstItem (rest ++ it :: post) iid f) from rfl,
      if_neg (hpre e (List.mem_cons_self _ _)),
      ih (fun x hx => hpre x (List.mem_cons_of_mem _ hx)), List.cons_append]

theorem updateFirstItem_not_found {inv : List InventoryItem} {iid : Int}
    {f : InventoryItem → InventoryItem} (h : ∀ x ∈ inv, x.itemId ≠ iid) :
    updateFirstItem inv iid f = inv := by
  induction inv with
  | nil => rfl
  | cons e rest ih =>
    rw [show updateFirstItem (e :: rest) iid f
      = (if e.itemId = iid then f e :: rest else e :: updateFirstItem rest iid f) from rfl,
      if_neg (h e (List.mem_cons_self _ _)),
      ih (fun x hx => h x (List.mem_cons_of_mem _ hx))]

/-- Under distinct item ids, the first-match update is a pointwise map. -/
theorem updateFirstItem_eq_map {inv : List InventoryItem} {iid : Int}
    {f : InventoryItem → InventoryItem}
    (h : (inv.map (·.itemId)).Nodup) :
    updateFirstItem inv iid f = inv.map (fun x => if x.itemId = iid then f x else x) := by
  induction inv with
  | nil => rfl
  | cons e rest ih =>
    rw [List.map_cons, List.nodup_cons] at h
    rw [show updateFirstItem (e :: rest) iid f
      = (if e.itemId = iid then f e :: rest else e :: updateFirstItem rest iid f) from rfl,
      List.map_cons]
    by_cases he : e.itemId = iid
    · rw [if_pos he, if_pos he]
      congr 1
      have hrest : ∀ x ∈ rest, x.itemId ≠ iid := by
        intro x hx hxid
        apply h.1
        rw [he, ← hxid]
        exact List.mem_map_of_mem _ hx
      rw [show rest.map (fun x => if x.itemId = iid then f x else x)
          = rest.map id from List.map_congr_left (fun x hx => if_neg (hrest x hx)),
        List.map_id]
    · rw [if_neg he, if_neg he, ih h.2]

theorem findAttendeeById_decomp {l : List Attendee} {aid : Int} {a : Attendee}
    (h : findAttendeeById l aid = some a) :
    a.attendeeId = aid ∧ ∃ pre post, l = pre ++ a :: post ∧ ∀ x ∈ pre, x.attendeeId ≠ aid := by
  induction l with
  | nil => exact absurd h (by simp [findAttendeeById])
  | cons e rest ih =>
    rw [show findAttendeeById (e :: rest) aid
      = (if e.attendeeId = aid then some e else findAttendeeById rest aid) from rfl] at h
    by_cases he : e.attendeeId = aid
    · rw [if_pos he] at h
      injection h with h2
      exact ⟨h2 ▸ he, [], rest, by rw [h2, List.nil_append], by simp⟩
    · rw [if_neg he] at h
      obtain ⟨hid, pre, post, heq, hpre⟩ := ih h
      refine ⟨hid, e :: pre, post, by rw [heq, List.cons_append], fun x hx => ?_⟩
      rcases List.mem_cons.mp hx with rfl | hx'
      · exact he
      · exact hpre x hx'

theorem findAttendeeById_append_new {l : List Attendee} {aid : Int} {a : Attendee}
    (hl : findAttendeeById l aid = none) (ha : a.attendeeId = aid) :
    findAttendeeById (l ++ [a]) aid = some a := by
  induction l with
  | nil =>
    simp only [List.nil_append]
    rw [show findAttendeeById [a] aid
      = (if a.attendeeId = aid then some a else findAttendeeById [] aid) from rfl, if_pos ha]
  | cons e rest ih =>
    rw [show findAttendeeById (e :: rest) aid
      = (if e.attendeeId = aid then some e else findAttendeeById rest aid) from rfl] at hl
    by_cases he : e.attendeeId = aid
    · rw [if_pos he] at hl; exact absurd hl (by simp)
    · rw [if_neg he] at hl
      rw [List.cons_append,
        show findAttendeeById (e :: (rest ++ [a])) aid
        = (if e.attendeeId = aid then some e else findAttendeeById (rest ++ [a]) aid) from rfl,
        if_neg he, ih hl]

theorem updateFirstAttendee_decomp {pre post : List Attendee} {aid : Int}
    {f : Attendee → Attendee} {a : Attendee}
    (hpre : ∀ x ∈ pre, x.attendeeId ≠ aid) (ha : a.attendeeId = aid) :
    updateFirstAttendee (pre ++ a :: post) aid f = pre ++ f a :: post := by
  induction pre with
  | nil =>
    simp only [List.nil_append]
    rw [show updateFirstAttendee (a :: post) aid f
      = (if a.attendeeId = aid then f a :: post else a :: updateFirstAttendee post aid f) from rfl,
      if_pos ha]
  | cons e rest ih =>
    rw [List.cons_append,
      show updateFirstAttendee (e :: (rest ++ a :: post)) aid f
      = (if e.attendeeId = aid then f e :: (rest ++ a :: post)
         else e :: updateFirstAttendee (rest ++ a :: post) aid f) from rfl,
      if_neg (hpre e (List.mem_cons_self _ _)),
      ih (fun x hx => hpre x (List.mem_cons_of_mem _ hx)), List.cons_append]

/-- Positionally, an in-place attendee update either keeps an element or
applies `f` to an element whose id matched. -/
theorem updateFirstAttendee_index {l : List Attendee} {aid : Int} {f : Attendee → Attendee}
    {i : Nat} {a a' : Attendee}
    (h1 : l[i]? = some a) (h2 : (updateFirstAttendee l aid f)[i]? = some a') :
    a' = a ∨ (a' = f a ∧ a.attendeeId = aid) := by
  induction l generalizing i with
  | nil => exact absurd h1 (by simp)
  | cons e rest ih =>
    rw [show updateFirstAttendee (e :: rest) aid f
      = (if e.attendeeId = aid then f e :: rest else e :: updateFirstAttendee rest aid f)
      from rfl] at h2
    by_cases he : e.attendeeId = aid
    · rw [if_pos he] at h2
      match i with
      | 0 =>
        simp only [List.getElem?_cons_zero] at h1 h2
        injection h1 with h1'; injection h2 with h2'
        exact Or.inr ⟨by rw [← h1', ← h2'], h1' ▸ he⟩
      | i + 1 =>
        simp only [List.getElem?_cons_succ] at h1 h2
        rw [h1] at h2
        injection h2 with h2'
        exact Or.inl h2'.symm
    · rw [if_neg he] at h2
      match i with
      | 0 =>
        simp only [List.getElem?_cons_zero] at h1 h2
        injection h1 with h1'; injection h2 with h2'
        exact Or.inl (by rw [← h1', ← h2'])
      | i + 1 =>
        simp only [List.getElem?_cons_succ] at h1 h2
        exact ih h1 h2

/-! ### Sum-of-allocations lemmas -/

theorem sumAlloc_nil (k : Int) : sumAlloc [] k = 0 := rfl

theorem sumAlloc_cons (e : Event) (es : List Event) (k : Int) :
    sumAlloc (e :: es) k = eventAlloc e k + sumAlloc es k := by
  simp [sumAlloc]

theorem sumAlloc_append (l₁ l₂ : List Event) (k : Int) :
    sumAlloc (l₁ ++ l₂) k = sumAlloc l₁ k + sumAlloc l₂ k := by
  simp [sumAlloc]

theorem sumAlloc_nonneg {es : List Event} {k : Int}
    (h : ∀ e ∈ es, ∀ p ∈ e.allocatedInventory, 0 ≤ p.2) : 0 ≤ sumAlloc es k := by
  induction es with
  | nil => simp [sumAlloc]
  | cons e rest ih =>
    rw [sumAlloc_cons]
    have h1 : 0 ≤ eventAlloc e k :=
      mapLookup_nonneg (h e (List.mem_cons_self _ _))
    have h2 := ih (fun x hx => h x (List.mem_cons_of_mem _ hx))
    omega

/-- In a duplicate-free projection, elements after the matched one have a
different key. -/
theorem nodup_map_post {α β : Type} {f : α → β} {pre post : List α} {x : α}
    (h : ((pre ++ x :: post).map f).Nodup) : ∀ y ∈ post, f y ≠ f x := by
  intro y hy hxy
  rw [List.map_append, List.map_cons] at h
  have h2 := (List.nodup_append.mp h).2.1
  rw [List.nodup_cons] at h2
  exact h2.1 (hxy ▸ List.mem_map_of_mem f hy)

/-! ### Preservation of the conservation invariant (claim C1) -/

/-- Replacing one event by one with the same id and a well-formed map,
and the inventory by one with the same ids, keeps `mapsWellFormed`. -/
theorem mapsWF_replace {st : SystemState} {preE postE : List Event} {ev ev' : Event}
    {inv' : List InventoryItem}
    (hw : mapsWellFormed st) (hesE : st.events = preE ++ ev :: postE)
    (hid : ev'.eventId = ev.eventId)
    (hsorted : ev'.allocatedInventory.Pairwise (fun p q => p.1 < q.1))
    (hnn : ∀ p ∈ ev'.allocatedInventory, 0 ≤ p.2)
    (hids : inv'.map (·.itemId) = st.inventory.map (·.itemId)) :
    mapsWellFormed { st with events := preE ++ ev' :: postE, inventory := inv' } := by
  obtain ⟨hw1, hw2, hw3, hw4⟩ := hw
  have hmapE : (preE ++ ev' :: postE).map (·.eventId) = st.events.map (·.eventId) := by
    rw [hesE]
    simp [List.map_append, hid]
  refine ⟨by rw [show ({ st with events := preE ++ ev' :: postE, inventory := inv' } :
      SystemState).events = preE ++ ev' :: postE from rfl, hmapE]; exact hw1,
    by rw [show ({ st with events := preE ++ ev' :: postE, inventory := inv' } :
      SystemState).inventory = inv' from rfl, hids]; exact hw2, ?_, ?_⟩
  · intro e he
    rcases List.mem_append.mp he with hp | hc
    · exact hw3 e (hesE ▸ List.mem_append_left _ hp)
    · rcases List.mem_cons.mp hc with rfl | hp2
      · exact hsorted
      · exact hw3 e (hesE ▸ List.mem_append_right _ (List.mem_cons_of_mem _ hp2))
  · intro e he
    rcases List.mem_append.mp he with hp | hc
    · exact hw4 e (hesE ▸ List.mem_append_left _ hp)
    · rcases List.mem_cons.mp hc with rfl | hp2
      · exact hnn
      · exact hw4 e (hesE ▸ List.mem_append_right _ (List.mem_cons_of_mem _ hp2))

theorem trackAllocate_preserves {st : SystemState} (hc : conservation st)
    (hw : mapsWellFormed st) (eventId itemId qty : Int) :
    conservation (trackAllocate st eventId itemId qty) ∧
    mapsWellFormed (trackAllocate st eventId itemId qty) := by
  rcases hfe : findEventById st.events eventId with _ | ev
  · have hstate : trackAllocate st eventId itemId qty = st := by
      simp [trackAllocate, hfe]
    rw [hstate]; exact ⟨hc, hw⟩
  by_cases hclosed : ev.status = EventStatus.COMPLETED ∨ ev.status = EventStatus.CANCELED
  · have hstate : trackAllocate st eventId itemId qty = st := by
      simp [trackAllocate, hfe, hclosed]
    rw [hstate]; exact ⟨hc, hw⟩
  rcases hfi : findItemById st.inventory itemId with _ | it
  · have hstate : trackAllocate st eventId itemId qty = st := by
      simp [trackAllocate, hfe, hclosed, hfi]
    rw [hstate]; exact ⟨hc, hw⟩
  by_cases hok : 0 < qty ∧ qty ≤ it.getAvailableQuantity
  swap
  · have hpair : allocatePair it ev qty = (false, it, ev) := by
      by_cases hq : qty ≤ 0
      · simp [allocatePair, InventoryItem.allocate, hq]
      · have h2 : ¬ qty ≤ it.getAvailableQuantity := by
          rcases not_and_or.mp hok with h | h <;> omega
        simp [allocatePair, InventoryItem.allocate, hq, h2]
    have hstate : trackAllocate st eventId itemId qty = st := by
      simp [trackAllocate, hfe, hclosed, hfi, hpair]
    rw [hstate]; exact ⟨hc, hw⟩
  obtain ⟨hq, hav⟩ := hok
  obtain ⟨hevid, preE, postE, hesE, hpreE⟩ := findEventById_decomp hfe
  obtain ⟨hitid, preI, postI, hesI, hpreI⟩ := findItemById_decomp hfi
  set it' : InventoryItem := { it with allocatedQuantity := it.allocatedQuantity + qty }
    with hit'
  set ev' : Event :=
    { ev with allocatedInventory := mapAddAt ev.allocatedInventory it.itemId qty } with hev'
  have hpair : allocatePair it ev qty = (true, it', ev') := by
    have h1 : ¬ qty ≤ 0 := by omega
    simp [allocatePair, InventoryItem.allocate, Event.allocateInventoryItem, h1, hav,
      hit', hev']
  have hstate : trackAllocate st eventId itemId qty
      = { st with inventory := updateFirstItem st.inventory itemId (fun _ => it'),
                  events := updateFirstEvent st.events eventId (fun _ => ev') } := by
    simp [trackAllocate, hfe, hclosed, hfi, hpair]
  have hupE : updateFirstEvent st.events eventId (fun _ => ev') = preE ++ ev' :: postE := by
    rw [hesE]; exact updateFirstEvent_decomp hpreE hevid
  have hupI : updateFirstItem st.inventory itemId (fun _ => it') = preI ++ it' :: postI := by
    rw [hesI]; exact updateFirstItem_decomp hpreI hitid
  rw [hstate, hupE, hupI]
  obtain ⟨hw1, hw2, hw3, hw4⟩ := hw
  have hsortedEv : ev.allocatedInventory.Pairwise (fun p q => p.1 < q.1) :=
    hw3 ev (hesE ▸ List.mem_append_right _ (List.mem_cons_self _ _))
  have hpostI : ∀ y ∈ postI, y.itemId ≠ it.itemId :=
    nodup_map_post (f := fun x : InventoryItem => x.itemId) (hesI ▸ hw2)
  -- how the per-event allocation changes
  have hallocSame : ∀ k : Int, k ≠ it.itemId → eventAlloc ev' k = eventAlloc ev k := by
    intro k hk
    rw [show eventAlloc ev' k = (mapLookup (mapAddAt ev.allocatedInventory it.itemId qty) k).getD 0
        from rfl, mapAddAt_lookup_other hk]
    rfl
  have hallocBump : eventAlloc ev' it.itemId = eventAlloc ev it.itemId + qty := by
    rw [show eventAlloc ev' it.itemId
        = (mapLookup (mapAddAt ev.allocatedInventory it.itemId qty) it.itemId).getD 0 from rfl,
      mapAddAt_lookup_self hsortedEv]
    rfl
  have hsumSame : ∀ k : Int, k ≠ it.itemId →
      sumAlloc (preE ++ ev' :: postE) k = sumAlloc st.events k := by
    intro k hk
    rw [hesE, sumAlloc_append, sumAlloc_append, sumAlloc_cons, sumAlloc_cons,
      hallocSame k hk]
  have hsumBump : sumAlloc (preE ++ ev' :: postE) it.itemId
      = sumAlloc st.events it.itemId + qty := by
    rw [hesE, sumAlloc_append, sumAlloc_append, sumAlloc_cons, sumAlloc_cons, hallocBump]
    ring
  constructor
  · intro x hx
    show x.allocatedQuantity = sumAlloc (preE ++ ev' :: postE) x.itemId
    rcases List.mem_append.mp hx with hxp | hxc
    · have hxne : x.itemId ≠ it.itemId := fun hcon => hpreI x hxp (hcon.trans hitid)
      rw [hsumSame _ hxne]
      exact hc x (hesI ▸ List.mem_append_left _ hxp)
    · rcases List.mem_cons.mp hxc with rfl | hxp2
      · show it.allocatedQuantity + qty = sumAlloc (preE ++ ev' :: postE) it.itemId
        rw [hsumBump, hc it (hesI ▸ List.mem_append_right _ (List.mem_cons_self _ _))]
      · rw [hsumSame _ (hpostI x hxp2)]
        exact hc x (hesI ▸ List.mem_append_right _ (List.mem_cons_of_mem _ hxp2))
  · refine mapsWF_replace ⟨hw1, hw2, hw3, hw4⟩ hesE rfl
      (mapAddAt_pairwise hsortedEv)
      (mapAddAt_val_nonneg
        (hw4 ev (hesE ▸ List.mem_append_right _ (List.mem_cons_self _ _))) (by omega)) ?_
    rw [hesI]
    simp [List.map_append]

theorem mapLookup_skip {pre post : List (Int × Int)} {k k' b : Int} (h : k ≠ k') :
    mapLookup (pre ++ (k, b) :: post) k' = mapLookup (pre ++ post) k' := by
  induction pre with
  | nil =>
    simp only [List.nil_append]
    rw [show mapLookup ((k, b) :: post) k'
      = (if k = k' then some b else mapLookup post k') from rfl, if_neg h]
  | cons p rest ih =>
    rw [List.cons_append, List.cons_append,
      show mapLookup (p :: (rest ++ (k, b) :: post)) k'
        = (if p.1 = k' then some p.2 else mapLookup (rest ++ (k, b) :: post) k') from rfl,
      show mapLookup (p :: (rest ++ post)) k'
        = (if p.1 = k' then some p.2 else mapLookup (rest ++ post) k') from rfl, ih]

theorem pairwise_keys_replace {pre post : List (Int × Int)} {k b b' : Int}
    (h : (pre ++ (k, b) :: post).Pairwise (fun p q => p.1 < q.1)) :
    (pre ++ (k, b') :: post).Pairwise (fun p q => p.1 < q.1) := by
  rw [List.pairwise_append] at h ⊢
  obtain ⟨h1, h2, h3⟩ := h
  rw [List.pairwise_cons] at h2 ⊢
  refine ⟨h1, ⟨fun x hx => h2.1 x hx, h2.2⟩, fun a ha y hy => ?_⟩
  rcases List.mem_cons.mp hy with rfl | hy'
  · exact h3 a ha (k, b) (List.mem_cons_self _ _)
  · exact h3 a ha y (List.mem_cons_of_mem _ hy')

theorem trackDeallocate_preserves {st : SystemState} (hc : conservation st)
    (hw : mapsWellFormed st) (eventId itemId qty : Int) :
    conservation (trackDeallocate st eventId itemId qty) ∧
    mapsWellFormed (trackDeallocate st eventId itemId qty) := by
  rcases hfe : findEventById st.events eventId with _ | ev
  · have hstate : trackDeallocate st eventId itemId qty = st := by
      simp [trackDeallocate, hfe]
    rw [hstate]; exact ⟨hc, hw⟩
  by_cases hclosed : ev.status = EventStatus.COMPLETED ∨ ev.status = EventStatus.CANCELED
  · have hstate : trackDeallocate st eventId itemId qty = st := by
      simp [trackDeallocate, hfe, hclosed]
    rw [hstate]; exact ⟨hc, hw⟩
  rcases hfi : findItemById st.inventory itemId with _ | it
  · have hstate : trackDeallocate st eventId itemId qty = st := by
      simp [trackDeallocate, hfe, hclosed, hfi]
    rw [hstate]; exact ⟨hc, hw⟩
  obtain ⟨hevid, preE, postE, hesE, hpreE⟩ := findEventById_decomp hfe
  obtain ⟨hitid, preI, postI, hesI, hpreI⟩ := findItemById_decomp hfi
  obtain ⟨hw1, hw2, hw3, hw4⟩ := hw
  have hmemEv : ev ∈ st.events := hesE ▸ List.mem_append_right _ (List.mem_cons_self _ _)
  have hmemIt : it ∈ st.inventory := hesI ▸ List.mem_append_right _ (List.mem_cons_self _ _)
  have hIdemState :
      ({ st with inventory := updateFirstItem st.inventory itemId (fun _ => it),
                 events := updateFirstEvent st.events eventId (fun _ => ev) } :
        SystemState) = st := by
    have hupE : updateFirstEvent st.events eventId (fun _ => ev) = st.events := by
      rw [hesE, updateFirstEvent_decomp hpreE hevid]
    have hupI : updateFirstItem st.inventory itemId (fun _ => it) = st.inventory := by
      rw [hesI, updateFirstItem_decomp hpreI hitid]
    rw [hupE, hupI]
  by_cases hcur : (mapLookup ev.allocatedInventory it.itemId).getD 0 = 0
  · have hpair : deallocatePair it ev qty = (0, it, ev) := by
      simp [deallocatePair, hcur]
    have hstate : trackDeallocate st eventId itemId qty
        = { st with inventory := updateFirstItem st.inventory itemId (fun _ => it),
                    events := updateFirstEvent st.events eventId (fun _ => ev) } := by
      simp [trackDeallocate, hfe, hclosed, hfi, hpair]
    rw [hstate, hIdemState]; exact ⟨hc, hw1, hw2, hw3, hw4⟩
  by_cases hq : qty ≤ 0
  · have hpair : deallocatePair it ev qty = (0, it, ev) := by
      simp [deallocatePair, hcur, Event.deallocateInventoryItem, hq]
    have hstate : trackDeallocate st eventId itemId qty
        = { st with inventory := updateFirstItem st.inventory itemId (fun _ => it),
                    events := updateFirstEvent st.events eventId (fun _ => ev) } := by
      simp [trackDeallocate, hfe, hclosed, hfi, hpair]
    rw [hstate, hIdemState]; exact ⟨hc, hw1, hw2, hw3, hw4⟩
  -- entry present with a positive quantity, positive request
  have hlk : ∃ b, mapLookup ev.allocatedInventory it.itemId = some b := by
    rcases hlk0 : mapLookup ev.allocatedInventory it.itemId with _ | b
    · rw [hlk0] at hcur; simp at hcur
    · exact ⟨b, rfl⟩
  obtain ⟨b, hlk⟩ := hlk
  have hbpos : 0 < b := by
    have := hw4 ev hmemEv _ (mapLookup_mem hlk)
    have : (0 : Int) ≤ b := by simpa using this
    rw [hlk] at hcur; simp at hcur
    omega
  obtain ⟨preM, postM, hmeq, hpreM⟩ := mapLookup_decomp hlk
  have hsortedEv := hw3 ev hmemEv
  have hpostM : ∀ p ∈ postM, p.1 ≠ it.itemId := by
    intro p hp
    have := nodup_map_post (f := Prod.fst) (hmeq ▸ keys_nodup hsortedEv) p hp
    simpa using this
  set actual : Int := min b qty with hactual
  have hactpos : 0 < actual := by rw [hactual]; omega
  set m' : List (Int × Int) :=
    if b - actual ≤ 0 then preM ++ postM else preM ++ (it.itemId, b - actual) :: postM
    with hm'
  have hsub : mapSubErase ev.allocatedInventory it.itemId qty = (actual, m') := by
    rw [hmeq, mapSubErase_decomp hpreM]
  set ev' : Event := { ev with allocatedInventory := m' } with hev'
  have hdei : ev.deallocateInventoryItem it.itemId qty = (actual, ev') := by
    rw [Event.deallocateInventoryItem, if_neg hq, hsub]
  -- the item counter covers this event's entry, so the item update succeeds
  have hble : b ≤ it.allocatedQuantity := by
    have hcons := hc it hmemIt
    rw [hesE, sumAlloc_append, sumAlloc_cons] at hcons
    have h1 : 0 ≤ sumAlloc preE it.itemId :=
      sumAlloc_nonneg (fun e he => hw4 e (hesE ▸ List.mem_append_left _ he))
    have h2 : 0 ≤ sumAlloc postE it.itemId :=
      sumAlloc_nonneg
        (fun e he => hw4 e (hesE ▸ List.mem_append_right _ (List.mem_cons_of_mem _ he)))
    have h3 : eventAlloc ev it.itemId = b := by
      rw [eventAlloc, hlk]; rfl
    omega
  set it' : InventoryItem := { it with allocatedQuantity := it.allocatedQuantity - actual }
    with hit'
  have hdealloc : (it.deallocate actual).2 = it' := by
    rw [InventoryItem.deallocate, if_neg (by omega), if_pos (by omega)]
  have hpair : deallocatePair it ev qty = (actual, it', ev') := by
    rw [deallocatePair]
    simp only [hcur, if_neg hcur, hdei, if_pos hactpos, hdealloc]
    rfl
  have hstate : trackDeallocate st eventId itemId qty
      = { st with inventory := updateFirstItem st.inventory itemId (fun _ => it'),
                  events := updateFirstEvent st.events eventId (fun _ => ev') } := by
    simp [trackDeallocate, hfe, hclosed, hfi, hpair]
  have hupE : updateFirstEvent st.events eventId (fun _ => ev') = preE ++ ev' :: postE := by
    rw [hesE]; exact updateFirstEvent_decomp hpreE hevid
  have hupI : updateFirstItem st.inventory itemId (fun _ => it') = preI ++ it' :: postI := by
    rw [hesI]; exact updateFirstItem_decomp hpreI hitid
  rw [hstate, hupE, hupI]
  have hpostI : ∀ y ∈ postI, y.itemId ≠ it.itemId :=
    nodup_map_post (f := fun x : InventoryItem => x.itemId) (hesI ▸ hw2)
  have hallocSame : ∀ k : Int, k ≠ it.itemId → eventAlloc ev' k = eventAlloc ev k := by
    intro k hk
    have : mapLookup m' k = mapLookup ev.allocatedInventory k := by
      rw [hmeq, hm']
      split
      · exact (mapLookup_skip (fun hcon => hk hcon.symm)).symm
      · rw [mapLookup_skip (fun hcon => hk hcon.symm),
          mapLookup_skip (fun hcon => hk hcon.symm)]
    rw [show eventAlloc ev' k = (mapLookup m' k).getD 0 from rfl, this]
    rfl
  have hallocDrop : eventAlloc ev' it.itemId = eventAlloc ev it.itemId - actual := by
    have hevb : eventAlloc ev it.itemId = b := by rw [eventAlloc, hlk]; rfl
    rw [hevb, show eventAlloc ev' it.itemId = (mapLookup m' it.itemId).getD 0 from rfl, hm']
    split
    · next hcase =>
      rw [mapLookup_append_right hpreM, mapLookup_eq_none hpostM]
      simp only [Option.getD_none]
      omega
    · rw [mapLookup_pre hpreM]
      rfl
  have hsumSame : ∀ k : Int, k ≠ it.itemId →
      sumAlloc (preE ++ ev' :: postE) k = sumAlloc st.events k := by
    intro k hk
    rw [hesE, sumAlloc_append, sumAlloc_append, sumAlloc_cons, sumAlloc_cons,
      hallocSame k hk]
  have hsumDrop : sumAlloc (preE ++ ev' :: postE) it.itemId
      = sumAlloc st.events it.itemId - actual := by
    rw [hesE, sumAlloc_append, sumAlloc_append, sumAlloc_cons, sumAlloc_cons, hallocDrop]
    ring
  constructor
  · intro x hx
    show x.allocatedQuantity = sumAlloc (preE ++ ev' :: postE) x.itemId
    rcases List.mem_append.mp hx with hxp | hxc
    · have hxne : x.itemId ≠ it.itemId := fun hcon => hpreI x hxp (hcon.trans hitid)
      rw [hsumSame _ hxne]
      exact hc x (hesI ▸ List.mem_append_left _ hxp)
    · rcases List.mem_cons.mp hxc with rfl | hxp2
      · show it.allocatedQuantity - actual = sumAlloc (preE ++ ev' :: postE) it.itemId
        rw [hsumDrop, hc it hmemIt]
      · rw [hsumSame _ (hpostI x hxp2)]
        exact hc x (hesI ▸ List.mem_append_right _ (List.mem_cons_of_mem _ hxp2))
  · refine mapsWF_replace ⟨hw1, hw2, hw3, hw4⟩ hesE rfl ?_ ?_ ?_
    · show m'.Pairwise (fun p q => p.1 < q.1)
      rw [hm']
      split
      · refine List.Pairwise.sublist ?_ (hmeq ▸ hsortedEv)
        exact (List.sublist_cons_self _ _).append_left preM
      · exact pairwise_keys_replace (hmeq ▸ hsortedEv)
    · show ∀ p ∈ m', 0 ≤ p.2
      have hnnEv := hw4 ev hmemEv
      intro p hp
      rw [hm'] at hp
      split at hp
      · rcases List.mem_append.mp hp with h1 | h1
        · exact hnnEv p (hmeq ▸ List.mem_append_left _ h1)
        · exact hnnEv p (hmeq ▸ List.mem_append_right _ (List.mem_cons_of_mem _ h1))
      · next hkeep =>
        rcases List.mem_append.mp hp with h1 | h1
        · exact hnnEv p (hmeq ▸ List.mem_append_left _ h1)
        · rcases List.mem_cons.mp h1 with rfl | h2
          · simp only
            omega
          · exact hnnEv p (hmeq ▸ List.mem_append_right _ (List.mem_cons_of_mem _ h2))
    · rw [hesI]
      simp [List.map_append]

theorem deallocate_itemId (it : InventoryItem) (q : Int) :
    (it.deallocate q).2.itemId = it.itemId := by
  rw [InventoryItem.deallocate]
  split
  · rfl
  · split <;> rfl

theorem deallocate_of_bounds {it : InventoryItem} {q : Int}
    (h0 : 0 ≤ q) (h1 : q ≤ it.allocatedQuantity) :
    (it.deallocate q).2 = { it with allocatedQuantity := it.allocatedQuantity - q } := by
  rw [InventoryItem.deallocate]
  by_cases hq : q ≤ 0
  · rw [if_pos hq]
    have hz : q = 0 := by omega
    rw [hz, sub_zero]
  · rw [if_neg hq, if_pos h1]

/-- The deallocation loop of `System::deleteEvent` subtracts, from every
item, exactly the quantity the processed entries record for its id. -/
theorem foldl_dealloc {entries : List (Int × Int)} {inv : List InventoryItem}
    (hids : (inv.map (·.itemId)).Nodup)
    (hkeys : (entries.map Prod.fst).Nodup)
    (hq : ∀ p ∈ entries, 0 ≤ p.2)
    (hle : ∀ p ∈ entries, ∀ x ∈ inv, x.itemId = p.1 → p.2 ≤ x.allocatedQuantity) :
    entries.foldl
        (fun inv p => updateFirstItem inv p.1 (fun it => (it.deallocate p.2).2)) inv
      = inv.map (fun x =>
          { x with allocatedQuantity :=
              x.allocatedQuantity - (mapLookup entries x.itemId).getD 0 }) := by
  induction entries generalizing inv with
  | nil =>
    rw [List.foldl_nil]
    rw [show inv.map (fun x =>
        { x with allocatedQuantity := x.allocatedQuantity - (mapLookup [] x.itemId).getD 0 })
      = inv.map (fun x => x) from List.map_congr_left (fun x _ => by
        rw [show mapLookup [] x.itemId = none from rfl]
        simp), List.map_id']
  | cons p rest ih =>
    rcases p with ⟨k, q⟩
    rw [List.foldl_cons]
    rw [List.map_cons, List.nodup_cons] at hkeys
    have hrestk : ∀ x ∈ rest, x.1 ≠ k := by
      intro x hx hxk
      apply hkeys.1
      show k ∈ List.map Prod.fst rest
      rw [← hxk]
      exact List.mem_map_of_mem Prod.fst hx
    have hstep : updateFirstItem inv k (fun it => (it.deallocate q).2)
        = inv.map (fun x => if x.itemId = k then (x.deallocate q).2 else x) :=
      updateFirstItem_eq_map hids
    rw [hstep]
    have hids' : ((inv.map (fun x => if x.itemId = k then (x.deallocate q).2 else x)).map
        (·.itemId)).Nodup := by
      rw [List.map_map]
      have : ((fun x : InventoryItem => x.itemId) ∘
          (fun x => if x.itemId = k then (x.deallocate q).2 else x)) = (fun x => x.itemId) := by
        funext x
        by_cases hxk : x.itemId = k
        · simp [Function.comp, hxk, deallocate_itemId]
        · simp [Function.comp, hxk]
      rw [this]
      exact hids
    rw [ih hids' hkeys.2
      (fun x hx => hq x (List.mem_cons_of_mem _ hx))
      (by
        intro pr hpr x' hx' hid
        obtain ⟨x, hxmem, rfl⟩ := List.mem_map.mp hx'
        have hprk : pr.1 ≠ k := hrestk pr hpr
        by_cases hxk : x.itemId = k
        · rw [if_pos hxk] at hid ⊢
          rw [deallocate_itemId] at hid
          exact absurd (by rw [← hid]; exact hxk) hprk
        · rw [if_neg hxk] at hid ⊢
          exact hle pr (List.mem_cons_of_mem _ hpr) x hxmem hid),
      List.map_map]
    refine List.map_congr_left (fun x hxmem => ?_)
    by_cases hxk : x.itemId = k
    · have hbound : q ≤ x.allocatedQuantity :=
        hle (k, q) (List.mem_cons_self _ _) x hxmem hxk
      have hq0 : 0 ≤ q := hq (k, q) (List.mem_cons_self _ _)
      simp only [Function.comp, if_pos hxk, deallocate_of_bounds hq0 hbound]
      have hlk1 : mapLookup ((k, q) :: rest) x.itemId = some q := by
        rw [show mapLookup ((k, q) :: rest) x.itemId
          = (if k = x.itemId then some q else mapLookup rest x.itemId) from rfl,
          if_pos hxk.symm]
      have hlk2 : mapLookup rest x.itemId = none := by
        refine mapLookup_eq_none (fun pr hpr hcon => hrestk pr hpr ?_)
        rw [hcon]; exact hxk
      rw [hlk1, hlk2]
      simp
    · simp only [Function.comp, if_neg hxk]
      have hlk : mapLookup ((k, q) :: rest) x.itemId = mapLookup rest x.itemId := by
        rw [show mapLookup ((k, q) :: rest) x.itemId
          = (if k = x.itemId then some q else mapLookup rest x.itemId) from rfl,
          if_neg (fun hcon => hxk hcon.symm)]
      rw [hlk]

theorem deleteEvent_preserves {st : SystemState} (hc : conservation st)
    (hw : mapsWellFormed st) (eventId : Int) :
    conservation (deleteEvent st eventId) ∧ mapsWellFormed (deleteEvent st eventId) := by
  rcases hfe : findEventById st.events eventId with _ | ev
  · have hstate : deleteEvent st eventId = st := by
      simp [deleteEvent, hfe]
    rw [hstate]; exact ⟨hc, hw⟩
  obtain ⟨hevid, preE, postE, hesE, hpreE⟩ := findEventById_decomp hfe
  obtain ⟨hw1, hw2, hw3, hw4⟩ := hw
  have hmemEv : ev ∈ st.events := hesE ▸ List.mem_append_right _ (List.mem_cons_self _ _)
  have hsortedEv := hw3 ev hmemEv
  have hnnEv := hw4 ev hmemEv
  have hpostE : ∀ y ∈ postE, y.eventId ≠ eventId := by
    intro y hy
    have := nodup_map_post (f := fun e : Event => e.eventId) (hesE ▸ hw1) y hy
    simp only at this
    rw [hevid] at this
    exact this
  have hle : ∀ p ∈ ev.allocatedInventory, ∀ x ∈ st.inventory,
      x.itemId = p.1 → p.2 ≤ x.allocatedQuantity := by
    intro p hp x hx hid
    have hcons := hc x hx
    rw [hesE, sumAlloc_append, sumAlloc_cons] at hcons
    have h1 : 0 ≤ sumAlloc preE x.itemId :=
      sumAlloc_nonneg (fun e he => hw4 e (hesE ▸ List.mem_append_left _ he))
    have h2 : 0 ≤ sumAlloc postE x.itemId :=
      sumAlloc_nonneg
        (fun e he => hw4 e (hesE ▸ List.mem_append_right _ (List.mem_cons_of_mem _ he)))
    have h3 : eventAlloc ev x.itemId = p.2 := by
      rw [eventAlloc, hid, mapLookup_sorted_of_mem hsortedEv hp]
      rfl
    omega
  have hinv : ev.allocatedInventory.foldl
      (fun inv p => updateFirstItem inv p.1 (fun it => (it.deallocate p.2).2)) st.inventory
      = st.inventory.map (fun x =>
          { x with allocatedQuantity :=
              x.allocatedQuantity - (mapLookup ev.allocatedInventory x.itemId).getD 0 }) :=
    foldl_dealloc hw2 (keys_nodup hsortedEv) hnnEv hle
  have hevC : updateFirstEvent st.events eventId (fun e => { e with allocatedInventory := [] })
      = preE ++ { ev with allocatedInventory := [] } :: postE := by
    rw [hesE]; exact updateFirstEvent_decomp hpreE hevid
  have hfilter : (preE ++ { ev with allocatedInventory := [] } :: postE).filter
      (fun e => ¬ e.eventId = eventId) = preE ++ postE := by
    rw [List.filter_append, List.filter_cons]
    rw [if_neg (by simp [hevid]), List.filter_eq_self.mpr (fun a ha => by simp [hpreE a ha]),
      List.filter_eq_self.mpr (fun a ha => by simp [hpostE a ha])]
  have hstate : deleteEvent st eventId
      = { st with
            inventory := st.inventory.map (fun x =>
              { x with allocatedQuantity :=
                  x.allocatedQuantity - (mapLookup ev.allocatedInventory x.itemId).getD 0 }),
            events := preE ++ postE } := by
    simp only [deleteEvent, hfe]
    rw [hinv, hevC, hfilter]
  rw [hstate]
  constructor
  · intro x' hx'
    obtain ⟨x, hxmem, rfl⟩ := List.mem_map.mp hx'
    show x.allocatedQuantity - (mapLookup ev.allocatedInventory x.itemId).getD 0
      = sumAlloc (preE ++ postE) x.itemId
    have hcons := hc x hxmem
    rw [hesE, sumAlloc_append, sumAlloc_cons] at hcons
    rw [sumAlloc_append]
    rw [show (mapLookup ev.allocatedInventory x.itemId).getD 0 = eventAlloc ev x.itemId from rfl]
    omega
  · refine ⟨?_, ?_, ?_, ?_⟩
    · show ((preE ++ postE).map (·.eventId)).Nodup
      refine List.Nodup.sublist ?_ (hesE ▸ hw1)
      rw [List.map_append, List.map_append, List.map_cons]
      exact ((List.sublist_cons_self _ _).append_left _)
    · show ((st.inventory.map (fun x =>
        { x with allocatedQuantity :=
            x.allocatedQuantity - (mapLookup ev.allocatedInventory x.itemId).getD 0 })).map
          (·.itemId)).Nodup
      rw [List.map_map]
      exact hw2
    · intro e he
      rcases List.mem_append.mp he with h1 | h1
      · exact hw3 e (hesE ▸ List.mem_append_left _ h1)
      · exact hw3 e (hesE ▸ List.mem_append_right _ (List.mem_cons_of_mem _ h1))
    · intro e he
      rcases List.mem_append.mp he with h1 | h1
      · exact hw4 e (hesE ▸ List.mem_append_left _ h1)
      · exact hw4 e (hesE ▸ List.mem_append_right _ (List.mem_cons_of_mem _ h1))

/-! ### Claim C1 -/

/-- Claim C1, counterexample to the claim as stated: conservation alone is
not an inductive invariant of the three operations. Three starting states
in which every item's allocated counter equals the sum of the recorded
event allocations, yet one operation breaks the equation: a negative
recorded entry surviving `deleteEvent`'s positivity-guarded deallocation;
two items sharing an id of which `trackAllocate` bumps only the first; and
two events sharing an id of which `deleteEvent` deallocates only the first
before erasing both. -/
theorem C1_conservation_counterexample :
    (conservation ⟨[⟨1, "A", "d", "t", "l", "de", "c", 0, [], [(1, -3)]⟩],
        [⟨1, "X", 5, -3, "d"⟩], [], 1, none⟩ ∧
      ¬ conservation (applyAllocOps
        ⟨[⟨1, "A", "d", "t", "l", "de", "c", 0, [], [(1, -3)]⟩],
         [⟨1, "X", 5, -3, "d"⟩], [], 1, none⟩ [AllocOp.del 1])) ∧
    (conservation ⟨[⟨1, "A", "d", "t", "l", "de", "c", 0, [], [(1, 3)]⟩],
        [⟨1, "X", 9, 3, "d"⟩, ⟨1, "Y", 9, 3, "d"⟩], [], 1, none⟩ ∧
      ¬ conservation (applyAllocOps
        ⟨[⟨1, "A", "d", "t", "l", "de", "c", 0, [], [(1, 3)]⟩],
         [⟨1, "X", 9, 3, "d"⟩, ⟨1, "Y", 9, 3, "d"⟩], [], 1, none⟩
        [AllocOp.alloc 1 1 2])) ∧
    (conservation ⟨[⟨1, "A", "d", "t", "l", "de", "c", 0, [], [(1, 2)]⟩,
        ⟨1, "B", "d", "t", "l", "de", "c", 0, [], [(1, 2)]⟩],
        [⟨1, "X", 9, 4, "d"⟩], [], 1, none⟩ ∧
      ¬ conservation (applyAllocOps
        ⟨[⟨1, "A", "d", "t", "l", "de", "c", 0, [], [(1, 2)]⟩,
          ⟨1, "B", "d", "t", "l", "de", "c", 0, [], [(1, 2)]⟩],
         [⟨1, "X", 9, 4, "d"⟩], [], 1, none⟩ [AllocOp.del 1])) := by
  refine ⟨⟨by decide, by decide⟩, ⟨by decide, by decide⟩, ⟨by decide, by decide⟩⟩

/-- Claim C1 (amended): starting from a state that satisfies the
conservation equation and is well formed in the sense the C++ containers
guarantee — distinct event ids, distinct item ids, strictly-sorted
allocation maps with nonnegative entries — every item's
`allocatedQuantity` equals the sum over all events of that event's
recorded allocation entry for the item's id, after any sequence of
allocate, deallocate and deleteEvent operations (and well-formedness is
itself preserved). -/
theorem C1_conservation_preserved (st : SystemState)
    (h : conservation st ∧ mapsWellFormed st) (ops : List AllocOp) :
    conservation (applyAllocOps st ops) ∧ mapsWellFormed (applyAllocOps st ops) := by
  induction ops generalizing st with
  | nil => exact h
  | cons op rest ih =>
    rw [show applyAllocOps st (op :: rest) = applyAllocOps (applyAllocOp st op) rest from rfl]
    refine ih _ ?_
    rcases op with ⟨eid, iid, q⟩ | ⟨eid, iid, q⟩ | eid
    · exact trackAllocate_preserves h.1 h.2 eid iid q
    · exact trackDeallocate_preserves h.1 h.2 eid iid q
    · exact deleteEvent_preserves h.1 h.2 eid

/-- Closed instance of `C1_conservation_preserved`: a well-formed two-item,
two-event state pushed through an allocate, a deallocate and a delete. -/
theorem C1_conservation_preserved_witness :
    conservation (applyAllocOps
      ⟨[⟨1, "A", "d", "t", "l", "de", "c", 0, [], [(1, 2), (2, 1)]⟩,
        ⟨2, "B", "d", "t", "l", "de", "c", 1, [], [(1, 1)]⟩],
       [⟨1, "X", 9, 3, "d"⟩, ⟨2, "Y", 4, 1, "d"⟩], [], 1, none⟩
      [AllocOp.alloc 1 1 2, AllocOp.dealloc 2 1 5, AllocOp.del 1]) ∧
    mapsWellFormed (applyAllocOps
      ⟨[⟨1, "A", "d", "t", "l", "de", "c", 0, [], [(1, 2), (2, 1)]⟩,
        ⟨2, "B", "d", "t", "l", "de", "c", 1, [], [(1, 1)]⟩],
       [⟨1, "X", 9, 3, "d"⟩, ⟨2, "Y", 4, 1, "d"⟩], [], 1, none⟩
      [AllocOp.alloc 1 1 2, AllocOp.dealloc 2 1 5, AllocOp.del 1]) :=
  C1_conservation_preserved _ ⟨by decide, by decide⟩ _

/-! ### Claim C2 -/

/-- Claim C2: `allocate(item, event, qty)` with `qty > 0` fails (the C++
`InventoryItem::allocate` returns `false`, reported as
InsufficientInventory) when `qty` exceeds `availableQuantity`, leaving
both the item and the event unchanged; on success it increments
`item.allocatedQuantity` and the event's allocation-map entry for the
item (created if absent) by exactly `qty`, and touches no other entry.
The map-entry readings assume the `std::map` key ordering. -/
theorem C2_allocate_spec (it : InventoryItem) (e : Event) (qty : Int)
    (hq : 0 < qty) (hs : e.allocatedInventory.Pairwise (fun p q => p.1 < q.1)) :
    (it.getAvailableQuantity < qty → allocatePair it e qty = (false, it, e)) ∧
    (qty ≤ it.getAvailableQuantity →
      allocatePair it e qty
        = (true, { it with allocatedQuantity := it.allocatedQuantity + qty },
           { e with allocatedInventory := mapAddAt e.allocatedInventory it.itemId qty }) ∧
      mapLookup (mapAddAt e.allocatedInventory it.itemId qty) it.itemId
        = some ((mapLookup e.allocatedInventory it.itemId).getD 0 + qty) ∧
      (∀ k, k ≠ it.itemId →
        mapLookup (mapAddAt e.allocatedInventory it.itemId qty) k
          = mapLookup e.allocatedInventory k)) := by
  constructor
  · intro hover
    have h1 : ¬ qty ≤ 0 := by omega
    have h2 : ¬ qty ≤ it.getAvailableQuantity := by omega
    simp [allocatePair, InventoryItem.allocate, h1, h2]
  · intro hav
    have h1 : ¬ qty ≤ 0 := by omega
    refine ⟨?_, mapAddAt_lookup_self hs, fun k hk => mapAddAt_lookup_other hk⟩
    simp [allocatePair, InventoryItem.allocate, Event.allocateInventoryItem, h1, hav]

/-- Closed instance of `C2_allocate_spec`: Scenario A's projector item,
totalling 5 with 0 allocated. -/
theorem C2_allocate_spec_witness :
    (((⟨1, "Projector", 5, 0, "HD"⟩ : InventoryItem).getAvailableQuantity < 5 →
      allocatePair ⟨1, "Projector", 5, 0, "HD"⟩
        ⟨1, "E1", "d", "t", "l", "de", "c", 0, [], []⟩ 5
        = (false, ⟨1, "Projector", 5, 0, "HD"⟩,
           ⟨1, "E1", "d", "t", "l", "de", "c", 0, [], []⟩)) ∧
    (5 ≤ ((⟨1, "Projector", 5, 0, "HD"⟩ : InventoryItem)).getAvailableQuantity →
      allocatePair ⟨1, "Projector", 5, 0, "HD"⟩
        ⟨1, "E1", "d", "t", "l", "de", "c", 0, [], []⟩ 5
        = (true, { (⟨1, "Projector", 5, 0, "HD"⟩ : InventoryItem) with
              allocatedQuantity := (⟨1, "Projector", 5, 0, "HD"⟩ : InventoryItem).allocatedQuantity + 5 },
           { (⟨1, "E1", "d", "t", "l", "de", "c", 0, [], []⟩ : Event) with
              allocatedInventory := mapAddAt [] 1 5 }) ∧
      mapLookup (mapAddAt [] 1 5) 1 = some ((mapLookup [] 1).getD 0 + 5) ∧
      (∀ k, k ≠ (1 : Int) →
        mapLookup (mapAddAt [] 1 5) k = mapLookup ([] : List (Int × Int)) k))) :=
  C2_allocate_spec ⟨1, "Projector", 5, 0, "HD"⟩
    ⟨1, "E1", "d", "t", "l", "de", "c", 0, [], []⟩ 5 (by decide) (by decide)

/-! ### Claim C3 -/

/-- Claim C3: `deallocate(item, event, qty)` with `qty > 0` removes exactly
`min qty cur`, where `cur` is the event's current allocation-map entry for
the item (0 when absent) — an over-request removes only what the event
holds and the actual amount is returned instead of failing — decrements
`item.allocatedQuantity` by that actual amount, removes the event's entry
exactly when it reaches zero, and touches no other entry. Hypotheses:
present `std::map` entries are positive and distinct-keyed (as the container
keeps them), and the item counter covers the event's entry (the §3
conservation invariant). -/
theorem C3_deallocate_spec (it : InventoryItem) (e : Event) (qty : Int)
    (hq : 0 < qty)
    (hkeys : (e.allocatedInventory.map Prod.fst).Nodup)
    (hpos : ∀ p ∈ e.allocatedInventory, 0 < p.2)
    (hle : (mapLookup e.allocatedInventory it.itemId).getD 0 ≤ it.allocatedQuantity) :
    (deallocatePair it e qty).1
      = min qty ((mapLookup e.allocatedInventory it.itemId).getD 0) ∧
    (deallocatePair it e qty).2.1
      = { it with allocatedQuantity :=
            it.allocatedQuantity
              - min qty ((mapLookup e.allocatedInventory it.itemId).getD 0) } ∧
    mapLookup (deallocatePair it e qty).2.2.allocatedInventory it.itemId
      = (if (mapLookup e.allocatedInventory it.itemId).getD 0 ≤ qty then none
         else some ((mapLookup e.allocatedInventory it.itemId).getD 0 - qty)) ∧
    (∀ k, k ≠ it.itemId →
      mapLookup (deallocatePair it e qty).2.2.allocatedInventory k
        = mapLookup e.allocatedInventory k) := by
  rcases hlk : mapLookup e.allocatedInventory it.itemId with _ | b
  · -- no entry: the early return leaves everything unchanged
    have hcur : (mapLookup e.allocatedInventory it.itemId).getD 0 = 0 := by rw [hlk]; rfl
    have hpair : deallocatePair it e qty = (0, it, e) := by
      simp [deallocatePair, hcur]
    rw [hpair]
    simp only [Option.getD_none]
    refine ⟨by omega, ?_, ?_, fun _ _ => trivial⟩
    · show it = { it with allocatedQuantity := it.allocatedQuantity - min qty 0 }
      rw [min_eq_right (by omega : (0 : Int) ≤ qty), sub_zero]
    · show mapLookup e.allocatedInventory it.itemId
        = (if (0 : Int) ≤ qty then none else some (0 - qty))
      rw [hlk, if_pos (by omega)]
  · have hb : 0 < b := hpos _ (mapLookup_mem hlk)
    have hcur : (mapLookup e.allocatedInventory it.itemId).getD 0 = b := by rw [hlk]; rfl
    have hcurne : ¬ (mapLookup e.allocatedInventory it.itemId).getD 0 = 0 := by omega
    obtain ⟨preM, postM, hmeq, hpreM⟩ := mapLookup_decomp hlk
    have hpostM : ∀ p ∈ postM, p.1 ≠ it.itemId := by
      intro p hp
      have := nodup_map_post (f := Prod.fst) (hmeq ▸ hkeys) p hp
      simpa using this
    set actual : Int := min b qty with hactual
    have hactpos : 0 < actual := by rw [hactual]; omega
    set m' : List (Int × Int) :=
      if b - actual ≤ 0 then preM ++ postM else preM ++ (it.itemId, b - actual) :: postM
      with hm'
    have hsub : mapSubErase e.allocatedInventory it.itemId qty = (actual, m') := by
      rw [hmeq, mapSubErase_decomp hpreM]
    have hdei : e.deallocateInventoryItem it.itemId qty
        = (actual, { e with allocatedInventory := m' }) := by
      rw [Event.deallocateInventoryItem, if_neg (by omega), hsub]
    have hdealloc : (it.deallocate actual).2
        = { it with allocatedQuantity := it.allocatedQuantity - actual } :=
      deallocate_of_bounds (by omega) (by omega)
    have hpair : deallocatePair it e qty
        = (actual, { it with allocatedQuantity := it.allocatedQuantity - actual },
           { e with allocatedInventory := m' }) := by
      rw [deallocatePair]
      simp only [hcurne, if_neg hcurne, hdei, if_pos hactpos, hdealloc]
      rfl
    rw [hpair]
    simp only [Option.getD_some]
    refine ⟨?_, ?_, ?_, ?_⟩
    · show actual = min qty b
      rw [hactual, min_comm]
    · show ({ it with allocatedQuantity := it.allocatedQuantity - actual } : InventoryItem)
        = { it with allocatedQuantity := it.allocatedQuantity - min qty b }
      rw [hactual, min_comm]
    · show mapLookup m' it.itemId = (if b ≤ qty then none else some (b - qty))
      rw [hm']
      by_cases hbq : b ≤ qty
      · rw [if_pos (by rw [hactual]; omega), if_pos hbq,
          mapLookup_append_right hpreM, mapLookup_eq_none hpostM]
      · rw [if_neg (by rw [hactual]; omega), if_neg hbq, mapLookup_pre hpreM,
          show b - actual = b - qty from by rw [hactual]; omega]
    · intro k hk
      show mapLookup m' k = mapLookup e.allocatedInventory k
      rw [hmeq, hm']
      split
      · exact (mapLookup_skip (fun hcon => hk hcon.symm)).symm
      · rw [mapLookup_skip (fun hcon => hk hcon.symm),
          mapLookup_skip (fun hcon => hk hcon.symm)]

/-- Closed instance of `C3_deallocate_spec`: Scenario A's deallocation of
2 from an event holding 5 of the item with all 5 allocated. -/
theorem C3_deallocate_spec_witness :
    ((deallocatePair ⟨1, "Projector", 5, 5, "HD"⟩
        ⟨1, "E1", "d", "t", "l", "de", "c", 0, [], [(1, 5)]⟩ 2).1
      = min 2 ((mapLookup [(1, 5)] 1).getD 0) ∧
    (deallocatePair ⟨1, "Projector", 5, 5, "HD"⟩
        ⟨1, "E1", "d", "t", "l", "de", "c", 0, [], [(1, 5)]⟩ 2).2.1
      = { (⟨1, "Projector", 5, 5, "HD"⟩ : InventoryItem) with
          allocatedQuantity :=
            (⟨1, "Projector", 5, 5, "HD"⟩ : InventoryItem).allocatedQuantity
              - min 2 ((mapLookup [(1, 5)] 1).getD 0) } ∧
    mapLookup (deallocatePair ⟨1, "Projector", 5, 5, "HD"⟩
        ⟨1, "E1", "d", "t", "l", "de", "c", 0, [], [(1, 5)]⟩ 2).2.2.allocatedInventory 1
      = (if ((mapLookup [(1, 5)] 1).getD 0) ≤ 2 then none
         else some ((mapLookup [(1, 5)] 1).getD 0 - 2)) ∧
    (∀ k, k ≠ (1 : Int) →
      mapLookup (deallocatePair ⟨1, "Projector", 5, 5, "HD"⟩
          ⟨1, "E1", "d", "t", "l", "de", "c", 0, [], [(1, 5)]⟩ 2).2.2.allocatedInventory k
        = mapLookup [(1, 5)] k)) :=
  C3_deallocate_spec ⟨1, "Projector", 5, 5, "HD"⟩
    ⟨1, "E1", "d", "t", "l", "de", "c", 0, [], [(1, 5)]⟩ 2
    (by decide) (by decide) (by decide) (by decide)

/-! ### Claim C4 -/

/-- Claim C4: `deleteEvent` deallocates every entry of the deleted event's
allocation map against its inventory item before removing the event: each
item's `allocatedQuantity` drops by exactly the quantity the event's map
records for its id (and items the event does not mention keep theirs), and
afterwards no event with the deleted id remains in the store. Hypotheses:
distinct item ids, the event's `std::map` key ordering, nonnegative
entries, and the item counters covering the entries (§3 invariant). -/
theorem C4_deleteEvent_spec (st : SystemState) (eventId : Int) (ev : Event)
    (hfind : findEventById st.events eventId = some ev)
    (hids : (st.inventory.map (·.itemId)).Nodup)
    (hkeys : ev.allocatedInventory.Pairwise (fun p q => p.1 < q.1))
    (hpos : ∀ p ∈ ev.allocatedInventory, 0 ≤ p.2)
    (hcover : ∀ p ∈ ev.allocatedInventory, ∀ x ∈ st.inventory,
      x.itemId = p.1 → p.2 ≤ x.allocatedQuantity) :
    (deleteEvent st eventId).inventory
      = st.inventory.map (fun x =>
          { x with allocatedQuantity :=
              x.allocatedQuantity - (mapLookup ev.allocatedInventory x.itemId).getD 0 }) ∧
    ∀ e' ∈ (deleteEvent st eventId).events, e'.eventId ≠ eventId := by
  have hstate : deleteEvent st eventId
      = { st with
            inventory := ev.allocatedInventory.foldl
              (fun inv p => updateFirstItem inv p.1 (fun it => (it.deallocate p.2).2))
              st.inventory,
            events := (updateFirstEvent st.events eventId
              (fun e => { e with allocatedInventory := [] })).filter
                (fun e => ¬ e.eventId = eventId) } := by
    simp only [deleteEvent, hfind]
  rw [hstate]
  constructor
  · exact foldl_dealloc hids (keys_nodup hkeys) hpos hcover
  · intro e' he'
    have := (List.mem_filter.mp he').2
    simpa using this

/-- Closed instance of `C4_deleteEvent_spec`: Scenario C — deleting an
event holding `{item7 : 3, item9 : 2}` drops those items' counters by 3
and 2 and leaves no event with the deleted id. -/
theorem C4_deleteEvent_spec_witness :
    ((deleteEvent ⟨[⟨1, "E", "d", "t", "l", "de", "c", 0, [], [(7, 3), (9, 2)]⟩],
        [⟨7, "X", 9, 3, "d"⟩, ⟨9, "Y", 9, 5, "d"⟩], [], 1, none⟩ 1).inventory
      = ([⟨7, "X", 9, 3, "d"⟩, ⟨9, "Y", 9, 5, "d"⟩] : List InventoryItem).map (fun x =>
          { x with allocatedQuantity :=
              x.allocatedQuantity - (mapLookup [(7, 3), (9, 2)] x.itemId).getD 0 }) ∧
    ∀ e' ∈ (deleteEvent ⟨[⟨1, "E", "d", "t", "l", "de", "c", 0, [], [(7, 3), (9, 2)]⟩],
        [⟨7, "X", 9, 3, "d"⟩, ⟨9, "Y", 9, 5, "d"⟩], [], 1, none⟩ 1).events,
      e'.eventId ≠ 1) :=
  C4_deleteEvent_spec _ 1 ⟨1, "E", "d", "t", "l", "de", "c", 0, [], [(7, 3), (9, 2)]⟩
    (by decide) (by decide) (by decide) (by decide) (by decide)

/-! ### Inventory line codec -/

theorem comma_data : (",").data = [','] := rfl

theorem item_encode_data (it : InventoryItem) :
    (InventoryItem.encode it).data
      = (intToString it.itemId).data ++ ',' :: (it.name.data ++ ',' ::
        ((intToString it.totalQuantity).data ++ ',' ::
        ((intToString it.allocatedQuantity).data ++ ',' :: it.description.data))) := by
  simp only [InventoryItem.encode, data_append, comma_data, List.append_assoc,
    List.singleton_append, List.cons_append, List.nil_append]

/-- Decoding a line the program wrote for an item whose name is
delimiter-free gives back exactly that item. -/
theorem item_decode_encode (it : InventoryItem) (hname : ',' ∉ it.name.data) :
    InventoryItem.decode (InventoryItem.encode it) = some it := by
  rw [InventoryItem.decode, item_encode_data,
    splitField_append (comma_not_mem_intToString it.itemId)]
  simp only
  rw [splitField_append hname]
  simp only
  rw [splitField_append (comma_not_mem_intToString it.totalQuantity)]
  simp only
  rw [splitField_append (comma_not_mem_intToString it.allocatedQuantity)]
  simp only [mk_data, stoi_intToString]

/-! ### Claim C5 -/

/-- Claim C5: `0 ≤ allocatedQuantity ≤ totalQuantity` is preserved by
every item mutation — allocate, deallocate, and setTotalQuantity, the
latter refusing (leaving the item unchanged) exactly when the new total is
negative or below the allocated amount — and by a save/load round trip of
the persisted inventory file, since decoding the line the program writes
reproduces the item (its name being delimiter-free, §4.2). -/
theorem C5_quantity_invariant (it : InventoryItem) (n q : Int)
    (h : it.quantityInv) :
    (it.allocate q).2.quantityInv ∧
    (it.deallocate q).2.quantityInv ∧
    (it.setTotalQuantity n).quantityInv ∧
    ((n < 0 ∨ n < it.allocatedQuantity) → it.setTotalQuantity n = it) ∧
    (',' ∉ it.name.data → InventoryItem.decode (InventoryItem.encode it) = some it) := by
  obtain ⟨h1, h2⟩ := h
  refine ⟨?_, ?_, ?_, ?_, fun hname => item_decode_encode it hname⟩
  · rw [InventoryItem.allocate]
    by_cases hq : q ≤ 0
    · rw [if_pos hq]; exact ⟨h1, h2⟩
    · by_cases hav : q ≤ it.getAvailableQuantity
      · rw [InventoryItem.getAvailableQuantity] at hav
        rw [if_neg hq, if_pos (by rw [InventoryItem.getAvailableQuantity]; omega)]
        simp only [InventoryItem.quantityInv]
        omega
      · rw [if_neg hq, if_neg hav]; exact ⟨h1, h2⟩
  · rw [InventoryItem.deallocate]
    by_cases hq : q ≤ 0
    · rw [if_pos hq]; exact ⟨h1, h2⟩
    · by_cases hal : q ≤ it.allocatedQuantity
      · rw [if_neg hq, if_pos hal]
        simp only [InventoryItem.quantityInv]
        omega
      · rw [if_neg hq, if_neg hal]; exact ⟨h1, h2⟩
  · rw [InventoryItem.setTotalQuantity]
    by_cases hn : n < 0
    · rw [if_pos hn]; exact ⟨h1, h2⟩
    · by_cases hna : n < it.allocatedQuantity
      · rw [if_neg hn, if_pos hna]; exact ⟨h1, h2⟩
      · rw [if_neg hn, if_neg hna]
        simp only [InventoryItem.quantityInv]
        omega
  · intro hrefuse
    rw [InventoryItem.setTotalQuantity]
    by_cases hn : n < 0
    · rw [if_pos hn]
    · rw [if_neg hn, if_pos (by omega)]

/-- Closed instance of `C5_quantity_invariant`: Scenario-A-like item with
a comma inside the terminal description field. -/
theorem C5_quantity_invariant_witness :
    (((⟨3, "Chairs", 100, 7, "Standard, event chairs"⟩ :
        InventoryItem).allocate 5).2.quantityInv ∧
    ((⟨3, "Chairs", 100, 7, "Standard, event chairs"⟩ :
        InventoryItem).deallocate 5).2.quantityInv ∧
    ((⟨3, "Chairs", 100, 7, "Standard, event chairs"⟩ :
        InventoryItem).setTotalQuantity 50).quantityInv ∧
    (((50 : Int) < 0 ∨ (50 : Int) <
        (⟨3, "Chairs", 100, 7, "Standard, event chairs"⟩ :
          InventoryItem).allocatedQuantity) →
      (⟨3, "Chairs", 100, 7, "Standard, event chairs"⟩ :
        InventoryItem).setTotalQuantity 50
        = ⟨3, "Chairs", 100, 7, "Standard, event chairs"⟩) ∧
    (',' ∉ ("Chairs" : String).data →
      InventoryItem.decode
        (InventoryItem.encode ⟨3, "Chairs", 100, 7, "Standard, event chairs"⟩)
        = some ⟨3, "Chairs", 100, 7, "Standard, event chairs"⟩)) :=
  C5_quantity_invariant ⟨3, "Chairs", 100, 7, "Standard, event chairs"⟩ 50 5 (by decide)

/-! ### Event line codec -/

theorem takeWhile_no_delim {d : Char} {f : List Char} (h : d ∉ f) :
    f.takeWhile (· ≠ d) = f :=
  takeWhile_eq_self_of_all (fun c hc => by
    simp only [decide_eq_true_eq]
    exact fun hcd => h (hcd ▸ hc))

theorem dropWhile_no_delim {d : Char} {f : List Char} (h : d ∉ f) :
    f.dropWhile (· ≠ d) = [] :=
  List.dropWhile_eq_nil_iff.mpr (fun c hc => by
    simp only [decide_eq_true_eq]
    exact fun hcd => h (hcd ▸ hc))

theorem joinSep_chars {parts : List (List Char)} {d c : Char}
    (hc : c ∈ Event.attendeesEncode.joinSep parts d) :
    c = d ∨ ∃ p ∈ parts, c ∈ p := by
  induction parts with
  | nil => exact absurd hc (List.not_mem_nil _)
  | cons x rest ih =>
    match rest with
    | [] =>
      exact Or.inr ⟨x, List.mem_cons_self _ _, hc⟩
    | y :: r =>
      rw [show Event.attendeesEncode.joinSep (x :: y :: r) d
        = x ++ d :: Event.attendeesEncode.joinSep (y :: r) d from rfl] at hc
      rcases List.mem_append.mp hc with h1 | h1
      · exact Or.inr ⟨x, List.mem_cons_self _ _, h1⟩
      · rcases List.mem_cons.mp h1 with rfl | h2
        · exact Or.inl rfl
        · rcases ih h2 with h3 | ⟨p, hp, hcp⟩
          · exact Or.inl h3
          · exact Or.inr ⟨p, List.mem_cons_of_mem _ hp, hcp⟩

theorem comma_not_mem_attendeesEncode (e : Event) :
    ',' ∉ e.attendeesEncode.data := by
  intro hmem
  rcases joinSep_chars hmem with h | ⟨p, hp, hcp⟩
  · exact absurd h (by decide)
  · obtain ⟨i, _, rfl⟩ := List.mem_map.mp hp
    exact comma_not_mem_intToString i hcp

theorem comma_not_mem_inventoryEncode (e : Event) :
    ',' ∉ e.inventoryEncode.data := by
  intro hmem
  rcases joinSep_chars hmem with h | ⟨p, hp, hcp⟩
  · exact absurd h (by decide)
  · obtain ⟨q, _, rfl⟩ := List.mem_map.mp hp
    rcases List.mem_append.mp hcp with h1 | h1
    · exact comma_not_mem_intToString q.1 h1
    · rcases List.mem_cons.mp h1 with h2 | h2
      · exact absurd h2 (by decide)
      · exact comma_not_mem_intToString q.2 h2

theorem splitSep_joinSep {parts : List (List Char)} {d : Char}
    (hne : ∀ p ∈ parts, p ≠ []) (hnd : ∀ p ∈ parts, d ∉ p) :
    splitSep (Event.attendeesEncode.joinSep parts d) d = parts := by
  induction parts with
  | nil =>
    rw [show Event.attendeesEncode.joinSep [] d = ([] : List Char) from rfl, splitSep]
    simp
  | cons x rest ih =>
    match rest with
    | [] =>
      rw [show Event.attendeesEncode.joinSep [x] d = x from rfl, splitSep,
        dif_neg (hne x (List.mem_cons_self _ _)),
        takeWhile_no_delim (hnd x (List.mem_cons_self _ _)),
        dropWhile_no_delim (hnd x (List.mem_cons_self _ _))]
      rw [show List.drop 1 ([] : List Char) = [] from rfl]
      rw [splitSep]
      simp
    | y :: r =>
      rw [show Event.attendeesEncode.joinSep (x :: y :: r) d
        = x ++ d :: Event.attendeesEncode.joinSep (y :: r) d from rfl, splitSep,
        dif_neg (by simp),
        takeWhile_append_delim (hnd x (List.mem_cons_self _ _)),
        dropWhile_append_delim (hnd x (List.mem_cons_self _ _))]
      rw [show (d :: Event.attendeesEncode.joinSep (y :: r) d).drop 1
        = Event.attendeesEncode.joinSep (y :: r) d from rfl]
      rw [ih (fun p hp => hne p (List.mem_cons_of_mem _ hp))
        (fun p hp => hnd p (List.mem_cons_of_mem _ hp))]

theorem parseAttendeeIds_encode (ids : List Int) :
    Event.parseAttendeeIds (ids.map (fun i => (intToString i).data)) = some ids := by
  induction ids with
  | nil => rfl
  | cons i rest ih =>
    rw [List.map_cons, Event.parseAttendeeIds, if_neg (intToString_ne_nil i), mk_data,
      stoi_intToString, ih]
    rfl

theorem parseInvEntry_encode (p : Int × Int) :
    Event.parseInvEntry ((intToString p.1).data ++ ':' :: (intToString p.2).data)
      = some p := by
  rw [Event.parseInvEntry, if_pos (List.mem_append_right _ (List.mem_cons_self _ _)),
    takeWhile_append_delim (colon_not_mem_intToString p.1),
    dropWhile_append_delim (colon_not_mem_intToString p.1)]
  simp only [List.drop_succ_cons, List.drop_zero, mk_data, stoi_intToString]

theorem foldl_mapSetAt {m acc : List (Int × Int)}
    (hs : (acc ++ m).Pairwise (fun p q => p.1 < q.1)) :
    (m.map (fun p => (intToString p.1).data ++ ':' :: (intToString p.2).data)).foldl
      (fun mm seg =>
        if seg = [] then mm
        else
          match Event.parseInvEntry seg with
          | some (k, v) => mapSetAt mm k v
          | none => mm)
      acc = acc ++ m := by
  induction m generalizing acc with
  | nil => simp
  | cons p rest ih =>
    rcases p with ⟨k, v⟩
    rw [List.map_cons, List.foldl_cons]
    have hseg : (intToString k).data ++ ':' :: (intToString v).data ≠ [] := by simp
    simp only [if_neg hseg, parseInvEntry_encode (k, v)]
    have hlt : ∀ q ∈ acc, q.1 < k := by
      intro q hq
      have := (List.pairwise_append.mp hs).2.2 q hq (k, v) (List.mem_cons_self _ _)
      exact this
    rw [mapSetAt_append hlt]
    have hs' : ((acc ++ [(k, v)]) ++ rest).Pairwise (fun p q => p.1 < q.1) := by
      rw [List.append_assoc, List.singleton_append]
      exact hs
    rw [ih hs', List.append_assoc, List.singleton_append]

theorem parseInventory_encode {m : List (Int × Int)}
    (hs : m.Pairwise (fun p q => p.1 < q.1)) :
    Event.parseInventory (Event.attendeesEncode.joinSep
      (m.map (fun p => (intToString p.1).data ++ ':' :: (intToString p.2).data)) ';')
      = m := by
  rw [Event.parseInventory]
  rw [splitSep_joinSep
    (by
      intro p hp
      obtain ⟨q, _, rfl⟩ := List.mem_map.mp hp
      simp)
    (by
      intro p hp hmem
      obtain ⟨q, _, rfl⟩ := List.mem_map.mp hp
      rcases List.mem_append.mp hmem with h1 | h1
      · exact semi_not_mem_intToString q.1 h1
      · rcases List.mem_cons.mp h1 with h2 | h2
        · exact absurd h2 (by decide)
        · exact semi_not_mem_intToString q.2 h2)]
  exact foldl_mapSetAt (by rw [List.nil_append]; exact hs)

theorem event_encode_data (e : Event) :
    (Event.encode e).data
      = (intToString e.eventId).data ++ ',' :: (e.name.data ++ ',' :: (e.date.data ++ ',' ::
        (e.time.data ++ ',' :: (e.location.data ++ ',' :: (e.description.data ++ ',' ::
        (e.category.data ++ ',' :: ((intToString e.status).data ++ ',' ::
        (e.attendeesEncode.data ++ ',' :: e.inventoryEncode.data)))))))) := by
  simp only [Event.encode, data_append, comma_data, List.append_assoc,
    List.singleton_append, List.cons_append, List.nil_append]

/-- Decoding a line the program wrote for a well-formed event record gives
back exactly that record. -/
theorem event_decode_encode (e : Event) (hwf : e.wf) :
    Event.decode (Event.encode e) = some e := by
  obtain ⟨h1, h2, h3, h4, h5, h6, h7⟩ := hwf
  rw [Event.decode, event_encode_data,
    splitField_append (comma_not_mem_intToString e.eventId)]
  simp only
  rw [splitField_append h1]
  simp only
  rw [splitField_append h2]
  simp only
  rw [splitField_append h3]
  simp only
  rw [splitField_append h4]
  simp only
  rw [splitField_append h5]
  simp only
  rw [splitField_append h6]
  simp only
  rw [splitField_append (comma_not_mem_intToString e.status)]
  simp only
  rw [if_neg (by simp), splitField_append (comma_not_mem_attendeesEncode e)]
  simp only
  rw [mk_data, mk_data, stoi_intToString, stoi_intToString]
  rw [show e.attendeesEncode.data
    = Event.attendeesEncode.joinSep
        (e.attendeeIds.map (fun i => (intToString i).data)) ';' from rfl]
  rw [splitSep_joinSep
    (by
      intro p hp
      obtain ⟨i, _, rfl⟩ := List.mem_map.mp hp
      exact intToString_ne_nil i)
    (by
      intro p hp hmem
      obtain ⟨i, _, rfl⟩ := List.mem_map.mp hp
      exact semi_not_mem_intToString i hmem)]
  rw [parseAttendeeIds_encode]
  rw [show e.inventoryEncode.data
    = Event.attendeesEncode.joinSep
        (e.allocatedInventory.map
          (fun p => (intToString p.1).data ++ ':' :: (intToString p.2).data)) ';' from rfl]
  rw [parseInventory_encode h7]

/-! ### Claim C6 -/

/-- Claim C6: round trip of the event codec — for every well-formed
persisted event line (one `Event::toString` produces for a record whose
non-terminal string fields are delimiter-free and whose map carries the
`std::map` key order), re-encoding the decoded record reproduces the line
exactly; empty attendee sets and allocation maps serialize as empty
fields and multi-entry maps round-trip alike. -/
theorem C6_event_roundtrip (line : String) (h : Event.wfLine line) :
    (Event.decode line).map Event.encode = some line := by
  obtain ⟨e, hwf, henc⟩ := h
  rw [← henc, event_decode_encode e hwf]
  rfl

/-- Closed instance of `C6_event_roundtrip`: once with empty collections
(serialized as two empty trailing fields) and once with two attendees and
a two-entry allocation map. -/
theorem C6_event_roundtrip_witness :
    (Event.decode (Event.encode
        ⟨7, "Tech", "2025-10-20", "09:00", "Hall", "Annual", "Conference", 0, [], []⟩)).map
      Event.encode
      = some (Event.encode
        ⟨7, "Tech", "2025-10-20", "09:00", "Hall", "Annual", "Conference", 0, [], []⟩) ∧
    (Event.decode (Event.encode
        ⟨8, "Fair", "2025-07-15", "14:00", "Park", "Outdoor", "Social", 2,
         [1, 42], [(5, 3), (9, 2)]⟩)).map
      Event.encode
      = some (Event.encode
        ⟨8, "Fair", "2025-07-15", "14:00", "Park", "Outdoor", "Social", 2,
         [1, 42], [(5, 3), (9, 2)]⟩) :=
  ⟨C6_event_roundtrip _
      ⟨⟨7, "Tech", "2025-10-20", "09:00", "Hall", "Annual", "Conference", 0, [], []⟩,
        by decide, rfl⟩,
    C6_event_roundtrip _
      ⟨⟨8, "Fair", "2025-07-15", "14:00", "Park", "Outdoor", "Social", 2,
         [1, 42], [(5, 3), (9, 2)]⟩, by decide, rfl⟩⟩

/-! ### Claim C7 -/

/-- Claim C7 evaluated at the failing input: the claim says an inventory
line with a non-numeric quantity is skipped with a warning and the
remaining lines still load, but `InventoryItem::fromString` calls
`std::stoi` with no try/catch anywhere on the `loadInventory` path, so the
exception aborts the whole load: with the malformed middle line present
nothing is loaded (the process dies), while without it both valid lines
load. -/
theorem C7_loadInventory_aborts :
    loadInventory ["2,Chairs,10,0,Std", "1,Projector,five,0,HD", "3,Mic,4,0,W"] = none ∧
    stoi "five" = none ∧
    loadInventory ["2,Chairs,10,0,Std", "3,Mic,4,0,W"]
      = some [⟨2, "Chairs", 10, 0, "Std"⟩, ⟨3, "Mic", 4, 0, "W"⟩] := by
  refine ⟨by decide, by decide, by decide⟩

/-! ### Claim C8 -/

/-- Claim C8: `registerAttendeeForEvent` refuses (the registration-closed
PolicyViolation path) whenever the target event's status is Completed or
Canceled, returning the state unchanged — attendee set and everything
else. -/
theorem C8_register_closed (st : SystemState) (eventId : Int) (inName inContact : String)
    (ev : Event) (hfind : findEventById st.events eventId = some ev)
    (hst : ev.status = EventStatus.COMPLETED ∨ ev.status = EventStatus.CANCELED) :
    registerAttendeeForEvent st eventId inName inContact = (RegOutcome.closed, st) := by
  have hnot : ¬ (ev.status = EventStatus.UPCOMING ∨ ev.status = EventStatus.ONGOING) := by
    rcases hst with h | h <;> rw [h] <;> decide
  simp [registerAttendeeForEvent, hfind, hnot]

/-- Closed instance of `C8_register_closed`: Scenario B, a Completed
event. -/
theorem C8_register_closed_witness :
    registerAttendeeForEvent
      ⟨[⟨1, "E", "d", "t", "l", "de", "c", 2, [7], []⟩], [], [⟨7, "g", "c", 1, false⟩], 8,
       some ⟨2, "admin", "password", Role.ADMIN⟩⟩ 1 "n" "c"
      = (RegOutcome.closed,
         ⟨[⟨1, "E", "d", "t", "l", "de", "c", 2, [7], []⟩], [], [⟨7, "g", "c", 1, false⟩], 8,
          some ⟨2, "admin", "password", Role.ADMIN⟩⟩) :=
  C8_register_closed _ 1 "n" "c" ⟨1, "E", "d", "t", "l", "de", "c", 2, [7], []⟩
    (by decide) (Or.inl rfl)

/-! ### Claim C9 -/

theorem findEventById_pre {pre post : List Event} {eid : Int} {ev : Event}
    (hpre : ∀ x ∈ pre, x.eventId ≠ eid) (hev : ev.eventId = eid) :
    findEventById (pre ++ ev :: post) eid = some ev := by
  induction pre with
  | nil =>
    simp only [List.nil_append]
    rw [show findEventById (ev :: post) eid
      = (if ev.eventId = eid then some ev else findEventById post eid) from rfl, if_pos hev]
  | cons e rest ih =>
    rw [List.cons_append,
      show findEventById (e :: (rest ++ ev :: post)) eid
      = (if e.eventId = eid then some e else findEventById (rest ++ ev :: post) eid) from rfl,
      if_neg (hpre e (List.mem_cons_self _ _)),
      ih (fun x hx => hpre x (List.mem_cons_of_mem _ hx))]

theorem findAttendeeById_pre {pre post : List Attendee} {aid : Int} {a : Attendee}
    (hpre : ∀ x ∈ pre, x.attendeeId ≠ aid) (ha : a.attendeeId = aid) :
    findAttendeeById (pre ++ a :: post) aid = some a := by
  induction pre with
  | nil =>
    simp only [List.nil_append]
    rw [show findAttendeeById (a :: post) aid
      = (if a.attendeeId = aid then some a else findAttendeeById post aid) from rfl, if_pos ha]
  | cons e rest ih =>
    rw [List.cons_append,
      show findAttendeeById (e :: (rest ++ a :: post)) aid
      = (if e.attendeeId = aid then some e else findAttendeeById (rest ++ a :: post) aid)
        from rfl,
      if_neg (hpre e (List.mem_cons_self _ _)),
      ih (fun x hx => hpre x (List.mem_cons_of_mem _ hx))]

theorem findAttendeeById_eq_none {l : List Attendee} {aid : Int}
    (h : ∀ a ∈ l, a.attendeeId ≠ aid) : findAttendeeById l aid = none := by
  induction l with
  | nil => rfl
  | cons a rest ih =>
    rw [show findAttendeeById (a :: rest) aid
      = (if a.attendeeId = aid then some a else findAttendeeById rest aid) from rfl,
      if_neg (h a (List.mem_cons_self _ _)),
      ih (fun x hx => h x (List.mem_cons_of_mem _ hx))]

theorem addAttendee_mem (e : Event) (aid : Int) :
    aid ∈ (e.addAttendee aid).attendeeIds := by
  rw [Event.addAttendee]
  by_cases h : aid ∈ e.attendeeIds
  · rw [if_pos h]; exact h
  · rw [if_neg h]
    exact List.mem_append_right _ (List.mem_singleton.mpr rfl)

theorem addAttendee_eventId (e : Event) (aid : Int) :
    (e.addAttendee aid).eventId = e.eventId := by
  rw [Event.addAttendee]
  split <;> rfl

/-- Looking the event up again after the in-place update finds the
updated record, when the update preserves the id. -/
theorem findEventById_update {es : List Event} {eid : Int} {ev : Event}
    (f : Event → Event) (hfind : findEventById es eid = some ev)
    (hid : (f ev).eventId = ev.eventId) :
    findEventById (updateFirstEvent es eid f) eid = some (f ev) := by
  obtain ⟨hevid, pre, post, heq, hpre⟩ := findEventById_decomp hfind
  rw [heq, updateFirstEvent_decomp hpre hevid]
  exact findEventById_pre hpre (by rw [hid, hevid])

/-- Claim C9: the identity bridge. When a logged-in regular user
self-registers for an open event, the attendee id used is the user's own
user id: the outcome carries it, that id is in the event's attendee set
afterwards, and the master list holds a record under that id (reused or
created). When the logged-in operator is an Admin, a freshly minted id —
the static counter, larger than every existing attendee id — is used
instead: the outcome carries the counter value and the guest record
entered under it. -/
theorem C9_identity_bridge (st : SystemState) (eventId : Int) (inName inContact : String)
    (ev : Event) (u : UserRec)
    (hfind : findEventById st.events eventId = some ev)
    (hopen : ev.status = EventStatus.UPCOMING ∨ ev.status = EventStatus.ONGOING)
    (hu : st.currentUser = some u) :
    (u.role = Role.REGULAR_USER →
      (registerAttendeeForEvent st eventId inName inContact).1
        = RegOutcome.registered u.userId ∧
      (∃ ev', findEventById
          (registerAttendeeForEvent st eventId inName inContact).2.events eventId
          = some ev' ∧ u.userId ∈ ev'.attendeeIds) ∧
      (∃ a, findAttendeeById
          (registerAttendeeForEvent st eventId inName inContact).2.allAttendees u.userId
          = some a ∧ a.attendeeId = u.userId)) ∧
    ((u.role = Role.ADMIN ∧ ∀ a ∈ st.allAttendees, a.attendeeId < st.nextAttendeeId) →
      (registerAttendeeForEvent st eventId inName inContact).1
        = RegOutcome.registered st.nextAttendeeId ∧
      (∃ ev', findEventById
          (registerAttendeeForEvent st eventId inName inContact).2.events eventId
          = some ev' ∧ st.nextAttendeeId ∈ ev'.attendeeIds) ∧
      findAttendeeById
          (registerAttendeeForEvent st eventId inName inContact).2.allAttendees
          st.nextAttendeeId
        = some ⟨st.nextAttendeeId, inName, inContact, eventId, false⟩ ∧
      ∀ a ∈ st.allAttendees, a.attendeeId ≠ st.nextAttendeeId) := by
  have hnot : ¬ ¬ (ev.status = EventStatus.UPCOMING ∨ ev.status = EventStatus.ONGOING) :=
    not_not_intro hopen
  constructor
  · intro hrole
    rcases hprofile : findAttendeeById st.allAttendees u.userId with _ | a0
    · -- first registration: a fresh profile row is appended
      have hres : registerAttendeeForEvent st eventId inName inContact
          = (RegOutcome.registered u.userId,
             { st with
                allAttendees :=
                  st.allAttendees ++ [(⟨u.userId, u.username, inContact, eventId, false⟩ :
                    Attendee)],
                nextAttendeeId :=
                  if st.nextAttendeeId ≤ u.userId then u.userId + 1 else st.nextAttendeeId,
                events := updateFirstEvent st.events eventId (·.addAttendee u.userId) }) := by
        simp [registerAttendeeForEvent, hfind, hnot, hu, hrole, hprofile]
      rw [hres]
      refine ⟨rfl, ⟨ev.addAttendee u.userId, ?_, addAttendee_mem ev u.userId⟩,
        ⟨⟨u.userId, u.username, inContact, eventId, false⟩, ?_, rfl⟩⟩
      · exact findEventById_update _ hfind (addAttendee_eventId ev u.userId)
      · exact findAttendeeById_append_new hprofile rfl
    · -- existing profile reused in place
      obtain ⟨haid, pre, post, heq, hpre⟩ := findAttendeeById_decomp hprofile
      have hres : registerAttendeeForEvent st eventId inName inContact
          = (RegOutcome.registered u.userId,
             { st with
                allAttendees := (updateFirstAttendee st.allAttendees u.userId
                  (fun a => { a with eventIdRegisteredFor := eventId })),
                events := updateFirstEvent st.events eventId (·.addAttendee u.userId) }) := by
        simp [registerAttendeeForEvent, hfind, hnot, hu, hrole, hprofile]
      rw [hres]
      refine ⟨rfl, ⟨ev.addAttendee u.userId, ?_, addAttendee_mem ev u.userId⟩,
        ⟨{ a0 with eventIdRegisteredFor := eventId }, ?_, haid⟩⟩
      · exact findEventById_update _ hfind (addAttendee_eventId ev u.userId)
      · show findAttendeeById (updateFirstAttendee st.allAttendees u.userId
          (fun a => { a with eventIdRegisteredFor := eventId })) u.userId
          = some { a0 with eventIdRegisteredFor := eventId }
        rw [heq, updateFirstAttendee_decomp hpre haid]
        exact findAttendeeById_pre hpre haid
  · intro ⟨hrole, hfresh⟩
    have hne : ∀ a ∈ st.allAttendees, a.attendeeId ≠ st.nextAttendeeId := by
      intro a ha
      have := hfresh a ha
      omega
    have hregSelf : (match st.currentUser with
        | some u => if u.role = Role.REGULAR_USER then some u else none
        | none => none) = (none : Option UserRec) := by
      rw [hu]
      show (if u.role = Role.REGULAR_USER then some u else none) = none
      rw [if_neg (by rw [hrole]; decide)]
    have hres : registerAttendeeForEvent st eventId inName inContact
        = (RegOutcome.registered st.nextAttendeeId,
           { st with
              allAttendees :=
                st.allAttendees ++ [(⟨st.nextAttendeeId, inName, inContact, eventId, false⟩ :
                  Attendee)],
              nextAttendeeId := st.nextAttendeeId + 1,
              events := updateFirstEvent st.events eventId
                (·.addAttendee st.nextAttendeeId) }) := by
      simp [registerAttendeeForEvent, hfind, hnot, hu, hregSelf, hrole]
    rw [hres]
    refine ⟨rfl,
      ⟨ev.addAttendee st.nextAttendeeId, ?_, addAttendee_mem ev st.nextAttendeeId⟩,
      ?_, hne⟩
    · exact findEventById_update _ hfind (addAttendee_eventId ev st.nextAttendeeId)
    · exact findAttendeeById_append_new (findAttendeeById_eq_none hne) rfl

/-- Closed instance of `C9_identity_bridge`: Scenario D — regular user 42
self-registers, and separately an admin registers a guest under the
counter value 8. -/
theorem C9_identity_bridge_witness :
    (((⟨42, "u1", "pass12", Role.REGULAR_USER⟩ : UserRec).role = Role.REGULAR_USER →
      (registerAttendeeForEvent
        ⟨[⟨1, "E", "d", "t", "l", "de", "c", 0, [], []⟩], [], [], 8,
         some ⟨42, "u1", "pass12", Role.REGULAR_USER⟩⟩ 1 "n" "c").1
        = RegOutcome.registered (⟨42, "u1", "pass12", Role.REGULAR_USER⟩ : UserRec).userId ∧
      (∃ ev', findEventById
          (registerAttendeeForEvent
            ⟨[⟨1, "E", "d", "t", "l", "de", "c", 0, [], []⟩], [], [], 8,
             some ⟨42, "u1", "pass12", Role.REGULAR_USER⟩⟩ 1 "n" "c").2.events 1
          = some ev' ∧
        (⟨42, "u1", "pass12", Role.REGULAR_USER⟩ : UserRec).userId ∈ ev'.attendeeIds) ∧
      (∃ a, findAttendeeById
          (registerAttendeeForEvent
            ⟨[⟨1, "E", "d", "t", "l", "de", "c", 0, [], []⟩], [], [], 8,
             some ⟨42, "u1", "pass12", Role.REGULAR_USER⟩⟩ 1 "n" "c").2.allAttendees
          (⟨42, "u1", "pass12", Role.REGULAR_USER⟩ : UserRec).userId
          = some a ∧
        a.attendeeId = (⟨42, "u1", "pass12", Role.REGULAR_USER⟩ : UserRec).userId)) ∧
    (((⟨42, "u1", "pass12", Role.REGULAR_USER⟩ : UserRec).role = Role.ADMIN ∧
        ∀ a ∈ ([] : List Attendee), a.attendeeId < (8 : Int)) →
      (registerAttendeeForEvent
        ⟨[⟨1, "E", "d", "t", "l", "de", "c", 0, [], []⟩], [], [], 8,
         some ⟨42, "u1", "pass12", Role.REGULAR_USER⟩⟩ 1 "n" "c").1
        = RegOutcome.registered 8 ∧
      (∃ ev', findEventById
          (registerAttendeeForEvent
            ⟨[⟨1, "E", "d", "t", "l", "de", "c", 0, [], []⟩], [], [], 8,
             some ⟨42, "u1", "pass12", Role.REGULAR_USER⟩⟩ 1 "n" "c").2.events 1
          = some ev' ∧ (8 : Int) ∈ ev'.attendeeIds) ∧
      findAttendeeById
          (registerAttendeeForEvent
            ⟨[⟨1, "E", "d", "t", "l", "de", "c", 0, [], []⟩], [], [], 8,
             some ⟨42, "u1", "pass12", Role.REGULAR_USER⟩⟩ 1 "n" "c").2.allAttendees 8
        = some ⟨8, "n", "c", 1, false⟩ ∧
      ∀ a ∈ ([] : List Attendee), a.attendeeId ≠ (8 : Int))) :=
  C9_identity_bridge
    ⟨[⟨1, "E", "d", "t", "l", "de", "c", 0, [], []⟩], [], [], 8,
     some ⟨42, "u1", "pass12", Role.REGULAR_USER⟩⟩ 1 "n" "c"
    ⟨1, "E", "d", "t", "l", "de", "c", 0, [], []⟩ ⟨42, "u1", "pass12", Role.REGULAR_USER⟩
    (by decide) (Or.inl rfl) rfl

/-! ### Claim C10 -/

/-- Claim C10, counterexample to the claim as stated: the checked-in flag
does go from true back to false. A regular user checked in for their
primary event cancels their own registration for that event:
`System::cancelOwnRegistration` resets `isCheckedIn` to `false` (line
1133 of src/test.cpp). -/
theorem C10_checkin_counterexample :
    (findAttendeeById
        (⟨[⟨1, "E", "d", "t", "l", "de", "c", 0, [42], []⟩], [],
          [⟨42, "u1", "c", 1, true⟩], 43,
          some ⟨42, "u1", "pass12", Role.REGULAR_USER⟩⟩ : SystemState).allAttendees 42).map
      (·.isCheckedIn) = some true ∧
    (findAttendeeById (cancelOwnRegistration
        ⟨[⟨1, "E", "d", "t", "l", "de", "c", 0, [42], []⟩], [],
         [⟨42, "u1", "c", 1, true⟩], 43,
         some ⟨42, "u1", "pass12", Role.REGULAR_USER⟩⟩ 1).allAttendees 42).map
      (·.isCheckedIn) = some false := by
  exact ⟨by decide, by decide⟩

theorem getElem?_append_of_some {l l' : List Attendee} {i : Nat} {a : Attendee}
    (h : l[i]? = some a) : (l ++ l')[i]? = some a := by
  induction l generalizing i with
  | nil => exact absurd h (by simp)
  | cons x rest ih =>
    match i with
    | 0 => simpa using h
    | i + 1 =>
      rw [List.cons_append]
      simp only [List.getElem?_cons_succ] at h ⊢
      exact ih h

/-- Claim C10 (amended): across the attendee-touching operations, the
checked-in flag transitions from true back to false only through
`cancelOwnRegistration`, and there only for the current user's own record
when its primary-event reference is the event being cancelled; `checkIn`,
`registerAttendeeForEvent` and `checkInAttendeeForEvent` never clear the
flag, and the allocation operations do not touch the attendee list at
all. -/
theorem C10_checkin_monotone (st : SystemState) (eventId itemId qty attendeeId : Int)
    (inName inContact : String) (confirm : Bool) (i : Nat) :
    (∀ a : Attendee, a.isCheckedIn = true → (a.checkIn).isCheckedIn = true) ∧
    (∀ a a', st.allAttendees[i]? = some a →
      ((registerAttendeeForEvent st eventId inName inContact).2.allAttendees)[i]? = some a' →
      a.isCheckedIn = true → a'.isCheckedIn = true) ∧
    (∀ a a', st.allAttendees[i]? = some a →
      ((checkInAttendeeForEvent st eventId attendeeId confirm).allAttendees)[i]? = some a' →
      a.isCheckedIn = true → a'.isCheckedIn = true) ∧
    ((deleteEvent st eventId).allAttendees = st.allAttendees) ∧
    ((trackAllocate st eventId itemId qty).allAttendees = st.allAttendees) ∧
    ((trackDeallocate st eventId itemId qty).allAttendees = st.allAttendees) ∧
    (∀ a a' u, st.currentUser = some u → st.allAttendees[i]? = some a →
      ((cancelOwnRegistration st eventId).allAttendees)[i]? = some a' →
      a.isCheckedIn = true → a'.isCheckedIn = false →
      a.attendeeId = u.userId ∧ a.eventIdRegisteredFor = eventId) := by
  have hcheckin : ∀ a : Attendee, a.isCheckedIn = true → (a.checkIn).isCheckedIn = true := by
    intro a ha
    rw [Attendee.checkIn, if_pos ha]
    exact ha
  refine ⟨hcheckin, ?_, ?_, ?_, ?_, ?_, ?_⟩
  · -- registerAttendeeForEvent
    intro a a' h1 h2 hflag
    rcases hfe : findEventById st.events eventId with _ | ev
    · rw [show (registerAttendeeForEvent st eventId inName inContact).2 = st from by
        simp [registerAttendeeForEvent, hfe]] at h2
      rw [h1] at h2
      injection h2 with h2'
      rw [← h2']
      exact hflag
    by_cases hopen : ev.status = EventStatus.UPCOMING ∨ ev.status = EventStatus.ONGOING
    swap
    · rw [show (registerAttendeeForEvent st eventId inName inContact).2 = st from by
        simp [registerAttendeeForEvent, hfe, hopen]] at h2
      rw [h1] at h2
      injection h2 with h2'
      rw [← h2']
      exact hflag
    have hnot := not_not_intro hopen
    rcases hcu : st.currentUser with _ | u
    · rw [show (registerAttendeeForEvent st eventId inName inContact).2.allAttendees
          = st.allAttendees ++ [(⟨st.nextAttendeeId, inName, inContact, eventId, false⟩ :
            Attendee)] from by
        simp [registerAttendeeForEvent, hfe, hnot, hcu]] at h2
      rw [getElem?_append_of_some h1] at h2
      injection h2 with h2'
      rw [← h2']
      exact hflag
    by_cases hrole : u.role = Role.REGULAR_USER
    · rcases hprofile : findAttendeeById st.allAttendees u.userId with _ | a0
      · rw [show (registerAttendeeForEvent st eventId inName inContact).2.allAttendees
            = st.allAttendees ++ [(⟨u.userId, u.username, inContact, eventId, false⟩ :
              Attendee)] from by
          simp [registerAttendeeForEvent, hfe, hnot, hcu, hrole, hprofile]] at h2
        rw [getElem?_append_of_some h1] at h2
        injection h2 with h2'
        rw [← h2']
        exact hflag
      · rw [show (registerAttendeeForEvent st eventId inName inContact).2.allAttendees
            = updateFirstAttendee st.allAttendees u.userId
                (fun a => { a with eventIdRegisteredFor := eventId }) from by
          simp [registerAttendeeForEvent, hfe, hnot, hcu, hrole, hprofile]] at h2
        rcases updateFirstAttendee_index h1 h2 with rfl | ⟨rfl, _⟩
        · exact hflag
        · exact hflag
    · rw [show (registerAttendeeForEvent st eventId inName inContact).2.allAttendees
          = st.allAttendees ++ [(⟨st.nextAttendeeId, inName, inContact, eventId, false⟩ :
            Attendee)] from by
        simp [registerAttendeeForEvent, hfe, hnot, hcu, hrole]] at h2
      rw [getElem?_append_of_some h1] at h2
      injection h2 with h2'
      rw [← h2']
      exact hflag
  · -- checkInAttendeeForEvent
    intro a a' h1 h2 hflag
    rcases hfe : findEventById st.events eventId with _ | ev
    · rw [show (checkInAttendeeForEvent st eventId attendeeId confirm).allAttendees
          = st.allAttendees from by simp [checkInAttendeeForEvent, hfe]] at h2
      rw [h1] at h2
      injection h2 with h2'
      rw [← h2']
      exact hflag
    by_cases hclosed : ev.status = EventStatus.COMPLETED ∨ ev.status = EventStatus.CANCELED
    · rw [show (checkInAttendeeForEvent st eventId attendeeId confirm).allAttendees
          = st.allAttendees from by simp [checkInAttendeeForEvent, hfe, hclosed]] at h2
      rw [h1] at h2
      injection h2 with h2'
      rw [← h2']
      exact hflag
    by_cases habort : ev.status = EventStatus.UPCOMING ∧ ¬ confirm
    · rw [show (checkInAttendeeForEvent st eventId attendeeId confirm).allAttendees
          = st.allAttendees from by simp [checkInAttendeeForEvent, hfe, hclosed, habort]] at h2
      rw [h1] at h2
      injection h2 with h2'
      rw [← h2']
      exact hflag
    by_cases hreg : attendeeId ∈ ev.attendeeIds
    · rw [show (checkInAttendeeForEvent st eventId attendeeId confirm).allAttendees
          = updateFirstAttendee st.allAttendees attendeeId Attendee.checkIn from by
        simp only [checkInAttendeeForEvent, hfe, if_neg hclosed, if_neg habort,
          if_pos hreg]
        split <;> rfl] at h2
      rcases updateFirstAttendee_index h1 h2 with rfl | ⟨rfl, _⟩
      · exact hflag
      · exact hcheckin a hflag
    · rw [show (checkInAttendeeForEvent st eventId attendeeId confirm).allAttendees
          = st.allAttendees from by
        simp only [checkInAttendeeForEvent, hfe, if_neg hclosed, if_neg habort,
          if_neg hreg]
        split <;> rfl] at h2
      rw [h1] at h2
      injection h2 with h2'
      rw [← h2']
      exact hflag
  · -- deleteEvent never touches the attendee list
    rw [deleteEvent]
    repeat first
    | rfl
    | split
  · rw [trackAllocate]
    repeat first
    | rfl
    | split
  · rw [trackDeallocate]
    repeat first
    | rfl
    | split
  · -- cancelOwnRegistration
    intro a a' u hcu h1 h2 hflag hflag'
    by_cases hrole : u.role = Role.REGULAR_USER
    swap
    · rw [show (cancelOwnRegistration st eventId).allAttendees = st.allAttendees from by
        simp [cancelOwnRegistration, hcu, hrole]] at h2
      rw [h1] at h2
      injection h2 with h2'
      rw [← h2', hflag] at hflag'
      exact absurd hflag' (by decide)
    rcases hfe : findEventById st.events eventId with _ | ev
    · rw [show (cancelOwnRegistration st eventId).allAttendees = st.allAttendees from by
        simp [cancelOwnRegistration, hcu, hrole, hfe]] at h2
      rw [h1] at h2
      injection h2 with h2'
      rw [← h2', hflag] at hflag'
      exact absurd hflag' (by decide)
    by_cases hclosed : ev.status = EventStatus.COMPLETED ∨ ev.status = EventStatus.CANCELED
    · rw [show (cancelOwnRegistration st eventId).allAttendees = st.allAttendees from by
        simp [cancelOwnRegistration, hcu, hrole, hfe, hclosed]] at h2
      rw [h1] at h2
      injection h2 with h2'
      rw [← h2', hflag] at hflag'
      exact absurd hflag' (by decide)
    by_cases hreg : u.userId ∈ ev.attendeeIds
    · rw [show (cancelOwnRegistration st eventId).allAttendees
          = updateFirstAttendee st.allAttendees u.userId
              (fun a =>
                if a.eventIdRegisteredFor = eventId then
                  { a with eventIdRegisteredFor := 0, isCheckedIn := false }
                else a) from by
        simp [cancelOwnRegistration, hcu, hrole, hfe, hclosed, hreg]] at h2
      rcases updateFirstAttendee_index h1 h2 with rfl | ⟨ha', hid⟩
      · rw [hflag] at hflag'
        exact absurd hflag' (by decide)
      · by_cases hprim : a.eventIdRegisteredFor = eventId
        · exact ⟨hid, hprim⟩
        · rw [ha', if_neg hprim, hflag] at hflag'
          exact absurd hflag' (by decide)
    · rw [show (cancelOwnRegistration st eventId).allAttendees = st.allAttendees from by
        simp [cancelOwnRegistration, hcu, hrole, hfe, hclosed, hreg]] at h2
      rw [h1] at h2
      injection h2 with h2'
      rw [← h2', hflag] at hflag'
      exact absurd hflag' (by decide)

/-- Closed instance of `C10_checkin_monotone`: the checkIn, register and
allocation conjuncts evaluated on a small concrete state. -/
theorem C10_checkin_monotone_witness :
    ((Attendee.checkIn ⟨42, "u1", "c", 1, true⟩).isCheckedIn = true) ∧
    ((deleteEvent ⟨[⟨1, "E", "d", "t", "l", "de", "c", 0, [42], []⟩], [],
        [⟨42, "u1", "c", 1, true⟩], 43,
        some ⟨42, "u1", "pass12", Role.REGULAR_USER⟩⟩ 1).allAttendees
      = [⟨42, "u1", "c", 1, true⟩]) ∧
    ((⟨42, "u1", "c", 1, true⟩ : Attendee).attendeeId = (42 : Int) ∧
      (⟨42, "u1", "c", 1, true⟩ : Attendee).eventIdRegisteredFor = (1 : Int)) :=
  ⟨(C10_checkin_monotone
      ⟨[⟨1, "E", "d", "t", "l", "de", "c", 0, [42], []⟩], [],
       [⟨42, "u1", "c", 1, true⟩], 43,
       some ⟨42, "u1", "pass12", Role.REGULAR_USER⟩⟩ 1 1 1 42 "n" "c" true 0).1
      ⟨42, "u1", "c", 1, true⟩ rfl,
   (C10_checkin_monotone
      ⟨[⟨1, "E", "d", "t", "l", "de", "c", 0, [42], []⟩], [],
       [⟨42, "u1", "c", 1, true⟩], 43,
       some ⟨42, "u1", "pass12", Role.REGULAR_USER⟩⟩ 1 1 1 42 "n" "c" true 0).2.2.2.1,
   (C10_checkin_monotone
      ⟨[⟨1, "E", "d", "t", "l", "de", "c", 0, [42], []⟩], [],
       [⟨42, "u1", "c", 1, true⟩], 43,
       some ⟨42, "u1", "pass12", Role.REGULAR_USER⟩⟩ 1 1 1 42 "n" "c" true 0).2.2.2.2.2.2
      ⟨42, "u1", "c", 1, true⟩ ⟨42, "u1", "c", 0, false⟩
      ⟨42, "u1", "pass12", Role.REGULAR_USER⟩ rfl rfl (by decide) rfl rfl⟩

end EMS
